import Mathlib

/-!
Verification of the document-to-structured-data extraction engine of
`scripts/parse_outputs.py`.

Text is modelled as `List Char` (`Str`), a shallow embedding of Python `str`
for the LF-delimited markdown documents the parser consumes.  Each Python
function is translated to a Lean function of the same name; the ambient
pieces of state the script reads (the clock, the on-disk asset counts, file
existence) become explicit arguments.
-/

set_option maxRecDepth 4000

namespace ParseOutputs

abbrev Str := List Char

def str (x : String) : Str := x.toList

/-- Python whitespace (`str.strip` / regex `\s`), ASCII range. -/
def pySpace (c : Char) : Bool :=
  c == ' ' || c == '\t' || c == '\n' || c == '\r' || c == '\x0b' || c == '\x0c'

def pyLower (cs : Str) : Str := cs.map Char.toLower

def pyUpper (cs : Str) : Str := cs.map Char.toUpper

/-- Python `value.strip()`. -/
def pyStrip (cs : Str) : Str :=
  ((cs.dropWhile pySpace).reverse.dropWhile pySpace).reverse

/-- `startsList p t` : `t` starts with `p` (Python `str.startswith`). -/
def startsList : Str → Str → Bool
  | [], _ => true
  | _ :: _, [] => false
  | p :: ps, c :: cs => if p = c then startsList ps cs else false

/-- Python `sub in t` (substring containment). -/
def pyContains (sub : Str) : Str → Bool
  | [] => sub.isEmpty
  | c :: cs => startsList sub (c :: cs) || pyContains sub cs

/-- Python `text.splitlines()` for LF-delimited text: lines without their
terminators; a final unterminated segment is kept unless empty. -/
def pyLines : Str → List Str
  | [] => []
  | c :: cs =>
    if c = '\n' then [] :: pyLines cs
    else
      match pyLines cs with
      | [] => [[c]]
      | l :: ls => (c :: l) :: ls

/-- Python `"\n".join(lines)`. -/
def joinLines : List Str → Str
  | [] => []
  | [l] => l
  | l :: ls => l ++ '\n' :: joinLines ls

/-- Largest index `i` of `cs` with `p cs[i]` true. -/
def lastKeep (p : Char → Bool) : Str → Option Nat
  | [] => none
  | c :: rest =>
    match lastKeep p rest with
    | some j => some (j + 1)
    | none => if p c then some 0 else none

/-- Split on every occurrence of a separator character satisfying `p`
(Python `re.split` on a character class); always at least one piece. -/
def splitOnPred (p : Char → Bool) : Str → List Str
  | [] => [[]]
  | c :: cs =>
    if p c then [] :: splitOnPred p cs
    else
      match splitOnPred p cs with
      | [] => [[c]]
      | l :: ls => (c :: l) :: ls

def natOfDigits (ds : Str) : Nat :=
  ds.foldl (fun a c => 10 * a + (c.toNat - 48)) 0

/-- `re.search(r'\d+', s)` followed by `int(...)`: the first maximal digit
run, parsed. -/
def firstInteger (cs : Str) : Option Nat :=
  let ds := (cs.dropWhile (fun c => !c.isDigit)).takeWhile Char.isDigit
  if ds = [] then none else some (natOfDigits ds)

def NOT_SPECIFIED : Str := str "not specified on website"

def PLACEHOLDER_MARKER : Str := str "Not yet collected."

/-- `normalize`: strip whitespace, `None` if the value is a "not specified"
sentinel (compared case-insensitively). -/
def normalize : Option Str → Option Str
  | none => none
  | some value =>
    let v := pyStrip value
    if pyLower v = NOT_SPECIFIED ∨ pyLower v = str "n/a" ∨ pyLower v = str "none" ∨
        pyLower v = str "unclear" ∨ pyLower v = [] then
      none
    else some v

/-- `to_bool`: Yes/No/Unclear strings to `True`/`False`/`None`. -/
def to_bool : Option Str → Option Bool
  | none => none
  | some value =>
    let v := pyLower (pyStrip value)
    if v = str "yes" ∨ v = str "true" ∨ v = str "1" then some true
    else if v = str "no" ∨ v = str "false" ∨ v = str "0" then some false
    else none

/-! ## Section splitting (`split_sections`) -/

/-- The group of `re.match(r'^##\s+(.+)', line)`: after the literal `##`
there must be at least one whitespace character; the greedy `\s+` then
leaves the rest of the line as the group, backtracking one whitespace
character when nothing else is left (`.` also matches non-newline
whitespace). -/
def headerMatch (line : Str) : Option Str :=
  if startsList (str "##") line then
    let r := line.drop 2
    let w := r.takeWhile pySpace
    if w = [] then none
    else
      let body := r.drop w.length
      if body = [] then
        match lastKeep (fun c => !(c == '\n')) (w.drop 1) with
        | some j => some ((w.drop (1 + j)).takeWhile (fun c => !(c == '\n')))
        | none => none
      else some (body.takeWhile (fun c => !(c == '\n')))
  else none

def isHeaderLine (line : Str) : Bool := (headerMatch line).isSome

def headerKey (line : Str) : Str := pyUpper (pyStrip ((headerMatch line).getD []))

/-- Association-list model of the Python `dict`: assignment to an existing
key replaces its value in place, a new key is appended. -/
def dictInsert : List (Str × Str) → Str → Str → List (Str × Str)
  | [], k, v => [(k, v)]
  | p :: rest, k, v => if p.1 = k then (k, v) :: rest else p :: dictInsert rest k v

/-- `sections.get(name, "")`. -/
def sectGet : List (Str × Str) → Str → Str
  | [], _ => []
  | p :: rest, k => if p.1 = k then p.2 else sectGet rest k

def hasKey : List (Str × Str) → Str → Bool
  | [], _ => false
  | p :: rest, k => if p.1 = k then true else hasKey rest k

def splitAux : List Str → Str → List Str → List (Str × Str) → List (Str × Str)
  | [], key, acc, secs => dictInsert secs key (joinLines acc.reverse)
  | line :: rest, key, acc, secs =>
    match headerMatch line with
    | some g => splitAux rest (pyUpper (pyStrip g)) [] (dictInsert secs key (joinLines acc.reverse))
    | none => splitAux rest key (line :: acc) secs

/-- `split_sections`: split a document into sections by `##` headers. -/
def split_sections (text : Str) : List (Str × Str) :=
  splitAux (pyLines text) (str "_preamble") [] []

/-! ## Subsection location (`get_subsection`) -/

/-- Case-insensitive prefix test (regex `re.IGNORECASE` literal match). -/
def ciStarts : Str → Str → Bool
  | [], _ => true
  | _ :: _, [] => false
  | p :: ps, c :: cs => p.toLower == c.toLower && ciStarts ps cs

/-- The lazy group `(.*?)(?=###|\Z)`: everything up to the first occurrence
of `###`, or to the end of text. -/
def captureUntilHash3 : Str → Str
  | [] => []
  | c :: cs => if startsList (str "###") (c :: cs) then [] else c :: captureUntilHash3 cs

/-- One attempt of `###\s+<name>\s*\n(.*?)(?=###|\Z)` anchored at the start
of `t`.  The greedy `\s+` needs no backtracking because subsection labels do
not begin with whitespace; the greedy `\s*\n` consumes the whitespace run up
to and including its last newline. -/
def tryMatchSub (name t : Str) : Option Str :=
  if startsList (str "###") t then
    let r1 := t.drop 3
    let w := r1.takeWhile pySpace
    if w = [] then none
    else
      let r2 := r1.drop w.length
      if ciStarts name r2 then
        let r3 := r2.drop name.length
        let run := r3.takeWhile pySpace
        match lastKeep (fun c => c == '\n') run with
        | some j => some (captureUntilHash3 (r3.drop (j + 1)))
        | none => none
      else none
  else none

/-- `re.search`: the leftmost position where the pattern matches. -/
def subSearch (name : Str) : Str → Option Str
  | [] => none
  | c :: cs =>
    match tryMatchSub name (c :: cs) with
    | some cap => some cap
    | none => subSearch name cs

/-- `get_subsection`: content under a `###` subsection, trimmed; `""` when
the subsection is not found. -/
def get_subsection (section_text subsection_name : Str) : Str :=
  match subSearch subsection_name section_text with
  | some cap => pyStrip cap
  | none => []

/-! ## Field extraction (`extract_field`) -/

def fieldKey (field : Str) : Str := str "**" ++ field ++ str ":**"

/-- One attempt of `\*\*<field>:\*\*\s*(.+)` anchored at the start of `t`:
after the label the greedy `\s*` run is skipped and the group is the rest of
the line; at end of input the greedy `\s*` backtracks to let `.+` take the
last non-newline whitespace character. -/
def tryFieldAt (field t : Str) : Option Str :=
  if ciStarts (fieldKey field) t then
    let r := t.drop (fieldKey field).length
    let run := r.takeWhile pySpace
    let rest := r.drop run.length
    if rest ≠ [] then some (rest.takeWhile (fun c => !(c == '\n')))
    else
      match lastKeep (fun c => !(c == '\n')) run with
      | some j => some ((run.drop j).takeWhile (fun c => !(c == '\n')))
      | none => none
  else none

def fieldSearch (field : Str) : Str → Option Str
  | [] => none
  | c :: cs =>
    match tryFieldAt field (c :: cs) with
    | some g => some g
    | none => fieldSearch field cs

/-- `extract_field`: value of the first `**Field Name:** value` line,
normalized; `None` when the pattern does not occur. -/
def extract_field (text field : Str) : Option Str :=
  match fieldSearch field text with
  | some g => normalize (some g)
  | none => none

/-! ## List and table extractors -/

/-- `extract_list_items`: bullet list items (`- ` or `* ` lines), stripped,
dropping empty items and the "not specified on website" sentinel. -/
def extract_list_items (text : Str) : List Str :=
  (pyLines text).foldl
    (fun items line =>
      let l := pyStrip line
      if startsList (str "- ") l || startsList (str "* ") l then
        let item := pyStrip (l.drop 2)
        if item ≠ [] ∧ pyLower item ≠ NOT_SPECIFIED then items ++ [item] else items
      else items)
    []

/-- The group of `re.match(r'^\d+\.\s+(.+)', line.strip())`, stripped. -/
def numberedItem (line : Str) : Option Str :=
  let l := pyStrip line
  let ds := l.takeWhile Char.isDigit
  if ds = [] then none
  else
    match l.drop ds.length with
    | '.' :: rest =>
      let w := rest.takeWhile pySpace
      if w = [] then none
      else
        let body := rest.drop w.length
        if body = [] then none else some (pyStrip body)
    | _ => none

/-- `extract_numbered_steps`: numbered list items, dropping the
"not specified on website" sentinel. -/
def extract_numbered_steps (text : Str) : List Str :=
  (pyLines text).foldl
    (fun steps line =>
      match numberedItem line with
      | some st => if pyLower st ≠ NOT_SPECIFIED then steps ++ [st] else steps
      | none => steps)
    []

structure FormRecord where
  name : Option Str
  form_number : Option Str
  description : Option Str
  language : Option Str
  url : Option Str
  file_type : Option Str
deriving DecidableEq

/-- `line.strip("|")`: strip all leading and trailing pipe characters. -/
def stripPipes (cs : Str) : Str :=
  ((cs.dropWhile (fun c => c == '|')).reverse.dropWhile (fun c => c == '|')).reverse

/-- Cells of one already-stripped table line: strip outer pipes, split on
`|`, strip each cell. -/
def cellsOf (line : Str) : List Str :=
  (splitOnPred (fun c => c == '|') (stripPipes line)).map pyStrip

/-- Separator row: every non-empty cell consists only of `-` and `:`. -/
def isSepRow (cells : List Str) : Bool :=
  cells.all (fun c => c.isEmpty || c.all (fun ch => ch == '-' || ch == ':'))

/-- Header row: first cell is the expected header label. -/
def isHeaderRow (cells : List Str) : Bool :=
  match cells with
  | [] => false
  | c :: _ => pyLower c = str "form name" || pyLower c = str "form name "

/-- `extract_form_table`: parse the markdown pipe table of a FORMS section. -/
def extract_form_table (section_text : Str) : List FormRecord :=
  let lines := ((pyLines section_text).map pyStrip).filter (fun l => startsList (str "|") l)
  let data_rows := lines.foldl
    (fun rows line =>
      let cells := cellsOf line
      if isSepRow cells then rows
      else if isHeaderRow cells then rows
      else if 6 ≤ cells.length then rows ++ [cells]
      else rows)
    []
  data_rows.foldl
    (fun forms row =>
      if row.length < 6 then forms
      else
        match row with
        | name :: form_num :: desc :: lang :: url :: file_type :: _ =>
          if pyLower name = [] ∨ pyLower name = NOT_SPECIFIED then forms
          else forms ++ [{ name := normalize (some name),
                           form_number := normalize (some form_num),
                           description := normalize (some desc),
                           language := normalize (some lang),
                           url := normalize (some url),
                           file_type := normalize (some file_type) }]
        | _ => forms)
    []

/-! ## The assembled record (`parse_state`) -/

structure ApplicationGroup where
  online_available : Option Bool
  online_url : Option Str
  online_doc_submission : Option Bool
  online_doc_submission_notes : Option Str
  steps_count : Option Nat
  steps : List Str
deriving DecidableEq

structure DocumentsGroup where
  specified_on_website : Bool
  document_list : List Str
deriving DecidableEq

structure InterviewGroup where
  required : Option Bool
  type_options : Option (List Str)
  scheduling_who_initiates : Option Str
  scheduling_url : Option Str
  hours_specified : Bool
  hours_description : Option Str
  evening_weekend_hours : Option Bool
  hours_notes : Option Str
  reminders_sent : Option Bool
  reminder_method : Option Str
  reschedule_available : Option Bool
  reschedule_method : Option Str
  reschedule_url : Option Str
  missed_interview_penalty : Option Str
  good_cause_exceptions : Option Bool
  good_cause_notes : Option Str
deriving DecidableEq

structure FormsGroup where
  total_count : Option Nat
  form_list : List FormRecord
deriving DecidableEq

structure LanguageGroup where
  website_languages : Option (List Str)
  form_languages : Option (List Str)
  translation_method : Option Str
  notes : Option Str
deriving DecidableEq

structure ComplexityGroup where
  steps_count : Option Nat
  forms_to_complete : Option Nat
  reading_level : Option Str
  reading_level_notes : Option Str
deriving DecidableEq

structure AssetsGroup where
  pages_referenced : Nat
  downloads_referenced : Nat
  pages_downloaded : Nat
  forms_downloaded : Nat
deriving DecidableEq

structure ParseStatus where
  parsed : Bool
  parse_timestamp : Str
  warnings : List Str
  errors : List Str
deriving DecidableEq

structure Metadata where
  state : Str
  abbreviation : Str
  collected_date : Option Str
  source_url : Option Str
  application : ApplicationGroup
  documents : DocumentsGroup
  interview : InterviewGroup
  forms : FormsGroup
  language_access : LanguageGroup
  complexity : ComplexityGroup
  assets : AssetsGroup
  parse_status : ParseStatus
deriving DecidableEq

/-- Length of a leftmost `https?://\S+` match starting exactly here (0 when
no match starts here). -/
def urlTokenLen (cs : Str) : Nat :=
  let schemeLen : Nat :=
    if startsList (str "https://") cs then 8
    else if startsList (str "http://") cs then 7
    else 0
  if schemeLen = 0 then 0
  else
    let run := (cs.takeWhile (fun c => !pySpace c)).length
    if schemeLen + 1 ≤ run then run else 0

/-- `len(re.findall(r'https?://\S+', text))`: non-overlapping matches. -/
def countUrls (cs : Str) : Nat :=
  if cs = [] then 0
  else
    let k := urlTokenLen cs
    if 0 < k then countUrls (cs.drop k) + 1 else countUrls cs.tail
termination_by cs.length
decreasing_by
  · have hpos : 0 < cs.length := List.length_pos.mpr (by assumption)
    simp only [List.length_drop]
    omega
  · have hpos : 0 < cs.length := List.length_pos.mpr (by assumption)
    simp only [List.length_tail]
    omega

/-- `parse_urls_section`: counts of referenced pages and downloads. -/
def parse_urls_section (section_text : Str) : Nat × Nat :=
  (countUrls (get_subsection section_text (str "Pages Visited")),
   countUrls (get_subsection section_text (str "Downloadable Assets")))

/-- Numbered steps of APPLICATION PROCESS: the `Steps` subsection first,
falling back to the whole section. -/
def stepsOf (appSection : Str) : List Str :=
  let fromSub := extract_numbered_steps (get_subsection appSection (str "Steps"))
  if fromSub = [] then extract_numbered_steps appSection else fromSub

/-- Declared integer of a labelled count field (`None` when the field is
absent or holds no digits). -/
def declaredCount (section_text field : Str) : Option Nat :=
  (extract_field section_text field).bind firstInteger

/-- `steps_count`: the COMPLEXITY ASSESSMENT estimate, falling back to the
number of extracted steps. -/
def steps_countOf (appSection complexitySection : Str) : Option Nat :=
  match declaredCount complexitySection (str "Estimated Number of Steps") with
  | some n => some n
  | none => if stepsOf appSection = [] then none else some (stepsOf appSection).length

def buildApplication (appSection complexitySection : Str) : ApplicationGroup :=
  { online_available := to_bool (extract_field appSection (str "Online Application Available"))
    online_url := extract_field appSection (str "Online Application URL")
    online_doc_submission := to_bool (extract_field appSection (str "Online Document Submission Available"))
    online_doc_submission_notes := extract_field appSection (str "Online Document Submission Notes")
    steps_count := steps_countOf appSection complexitySection
    steps := stepsOf appSection }

def buildDocuments (docsSection : Str) : DocumentsGroup :=
  { specified_on_website := !(extract_list_items docsSection).isEmpty
    document_list := extract_list_items docsSection }

/-- Interview type options: split on `,`/`/`, keep known values, write
"in person" as "in-person". -/
def interviewTypesOf (raw : Option Str) : List Str :=
  match raw with
  | none => []
  | some r =>
    (splitOnPred (fun c => c == ',' || c == '/') r).foldl
      (fun acc piece =>
        let t := pyLower (pyStrip piece)
        if t = str "phone" ∨ t = str "in-person" ∨ t = str "in person" ∨ t = str "both" then
          acc ++ [if t = str "in person" then str "in-person" else t]
        else acc)
      []

def buildInterview (iSection : Str) : InterviewGroup :=
  let types := interviewTypesOf (extract_field iSection (str "Interview Type Options"))
  let sched := get_subsection iSection (str "Scheduling")
  let timing := get_subsection iSection (str "Timing and Hours")
  let reminder := get_subsection iSection (str "Reminder Process")
  let resched := get_subsection iSection (str "Rescheduling")
  let penalty := get_subsection iSection (str "Missed Interview Penalties")
  let when_conducted := extract_field timing (str "When Interviews Are Conducted")
  { required := to_bool (extract_field iSection (str "Interview Required"))
    type_options := if types = [] then none else some types
    scheduling_who_initiates := extract_field sched (str "How to Schedule")
    scheduling_url := extract_field sched (str "Scheduling URL")
    hours_specified := when_conducted.isSome
    hours_description := when_conducted
    evening_weekend_hours := to_bool (extract_field timing (str "Evening or Weekend Hours Available"))
    hours_notes := extract_field timing (str "Hours Notes")
    reminders_sent := to_bool (extract_field reminder (str "Reminders Sent"))
    reminder_method := extract_field reminder (str "Reminder Method")
    reschedule_available := to_bool (extract_field resched (str "Reschedule Available"))
    reschedule_method := extract_field resched (str "How to Reschedule")
    reschedule_url := extract_field resched (str "Reschedule URL")
    missed_interview_penalty := extract_field penalty (str "Penalty for Missing Interview")
    good_cause_exceptions := to_bool (extract_field penalty (str "Good Cause Exceptions"))
    good_cause_notes := extract_field penalty (str "Good Cause Notes") }

def buildForms (fSection : Str) : FormsGroup :=
  let declared := declaredCount fSection (str "Total Forms Found")
  let table := extract_form_table fSection
  { total_count :=
      match declared with
      | some n => some n
      | none => if table = [] then none else some table.length
    form_list := table }

/-- Language list splitting with the "English only" special case. -/
def split_langs (raw : Option Str) : Option (List Str) :=
  match raw with
  | none => none
  | some r =>
    if pyLower r = str "english only" then some [str "English"]
    else some (((splitOnPred (fun c => c == ',' || c == ';') r).map pyStrip).filter
      (fun l => l ≠ []))

def buildLanguage (lSection : Str) : LanguageGroup :=
  { website_languages := split_langs (extract_field lSection (str "Languages Supported on Website"))
    form_languages := split_langs (extract_field lSection (str "Languages Supported on Forms"))
    translation_method := extract_field lSection (str "Translation Method")
    notes := extract_field lSection (str "Language Access Notes") }

def buildComplexity (appSection complexitySection : Str) : ComplexityGroup :=
  { steps_count := steps_countOf appSection complexitySection
    forms_to_complete := declaredCount complexitySection (str "Estimated Total Forms to Complete")
    reading_level := extract_field complexitySection (str "Estimated Reading Level")
    reading_level_notes := extract_field complexitySection (str "Reading Level Notes") }

def buildAssets (urlsSection : Str) (pages_dl forms_dl : Nat) : AssetsGroup :=
  let counts := if urlsSection = [] then (0, 0) else parse_urls_section urlsSection
  { pages_referenced := counts.1
    downloads_referenced := counts.2
    pages_downloaded := pages_dl
    forms_downloaded := forms_dl }

def APPLICATION_PROCESS : Str := str "APPLICATION PROCESS"
def REQUIRED_DOCUMENTS : Str := str "REQUIRED DOCUMENTS"
def INTERVIEW_REQUIREMENTS : Str := str "INTERVIEW REQUIREMENTS"
def FORMS : Str := str "FORMS"
def LANGUAGE_ACCESS : Str := str "LANGUAGE ACCESS"

def reqNames : List Str :=
  [APPLICATION_PROCESS, REQUIRED_DOCUMENTS, INTERVIEW_REQUIREMENTS, FORMS, LANGUAGE_ACCESS]

/-- The errors accumulated by one parse: one entry per missing required
block, in program order. -/
def errorsOf (secs : List (Str × Str)) : List Str :=
  (if sectGet secs APPLICATION_PROCESS = [] then [str "APPLICATION PROCESS section missing"] else []) ++
  (if sectGet secs REQUIRED_DOCUMENTS = [] then [str "REQUIRED DOCUMENTS section missing"] else []) ++
  (if sectGet secs INTERVIEW_REQUIREMENTS = [] then [str "INTERVIEW REQUIREMENTS section missing"] else []) ++
  (if sectGet secs FORMS = [] then [str "FORMS section missing"] else []) ++
  (if sectGet secs LANGUAGE_ACCESS = [] then [str "LANGUAGE ACCESS section missing"] else [])

/-- The warnings accumulated by one parse, in program order. -/
def warningsOf (secs : List (Str × Str)) : List Str :=
  let preamble := sectGet secs (str "_preamble")
  let fSection := sectGet secs FORMS
  (if (extract_field preamble (str "Collected")).isNone then
      [str "Collected date not found in preamble"] else []) ++
  (if (extract_field preamble (str "Source URL")).isNone then
      [str "Source URL not found in preamble"] else []) ++
  (if stepsOf (sectGet secs APPLICATION_PROCESS) = [] then
      [str "No numbered steps found in APPLICATION PROCESS"] else []) ++
  (if declaredCount fSection (str "Total Forms Found") = none ∧ extract_form_table fSection ≠ [] then
      [str "Total Forms Found field missing; inferred from table row count"] else []) ++
  (if sectGet secs (str "COMPLEXITY ASSESSMENT") = [] then
      [str "COMPLEXITY ASSESSMENT section missing"] else [])

/-- The metadata record assembled for a non-placeholder document.  `now` is
the `datetime.now(timezone.utc).isoformat()` timestamp; `pages_dl` and
`forms_dl` are the on-disk asset counts (`count_assets`). -/
def parseBody (content state_name state_abbrev now : Str) (pages_dl forms_dl : Nat) : Metadata :=
  let secs := split_sections content
  let preamble := sectGet secs (str "_preamble")
  { state := state_name
    abbreviation := state_abbrev
    collected_date := extract_field preamble (str "Collected")
    source_url := extract_field preamble (str "Source URL")
    application := buildApplication (sectGet secs APPLICATION_PROCESS)
      (sectGet secs (str "COMPLEXITY ASSESSMENT"))
    documents := buildDocuments (sectGet secs REQUIRED_DOCUMENTS)
    interview := buildInterview (sectGet secs INTERVIEW_REQUIREMENTS)
    forms := buildForms (sectGet secs FORMS)
    language_access := buildLanguage (sectGet secs LANGUAGE_ACCESS)
    complexity := buildComplexity (sectGet secs APPLICATION_PROCESS)
      (sectGet secs (str "COMPLEXITY ASSESSMENT"))
    assets := buildAssets (sectGet secs (str "URLS REFERENCED")) pages_dl forms_dl
    parse_status :=
      { parsed := (errorsOf secs).isEmpty
        parse_timestamp := now
        warnings := warningsOf secs
        errors := errorsOf secs } }

/-- `parse_state` returns `(metadata, warnings, errors)`.  `md_exists`
stands for `os.path.exists(md_path)` and `content` for the file text. -/
def parse_state (md_exists : Bool) (content state_name state_abbrev now : Str)
    (pages_dl forms_dl : Nat) : Option Metadata × List Str × List Str :=
  if md_exists = false then
    (none, [str "agent_output.md not found"], [])
  else if pyContains PLACEHOLDER_MARKER content then
    (none, [], [str "agent_output.md is a placeholder — not yet collected"])
  else
    (some (parseBody content state_name state_abbrev now pages_dl forms_dl),
     warningsOf (split_sections content),
     errorsOf (split_sections content))

def psMeta (r : Option Metadata × List Str × List Str) : Option Metadata := r.1
def psWarn (r : Option Metadata × List Str × List Str) : List Str := r.2.1
def psErr (r : Option Metadata × List Str × List Str) : List Str := r.2.2

/-! ## The batch driver (`main`) and the parse log -/

structure StateInfo where
  name : Str
  abbreviation : Str
deriving DecidableEq

/-- Per-document inputs the script reads from the environment. -/
structure DocInput where
  md_exists : Bool
  content : Str
  parse_now : Str
  log_now : Str
  pages_dl : Nat
  forms_dl : Nat
deriving DecidableEq

structure LogEntry where
  state : Str
  abbreviation : Str
  parse_timestamp : Str
  warnings : List Str
  errors : List Str
deriving DecidableEq

def mkEntry (st : StateInfo) (d : DocInput)
    (r : Option Metadata × List Str × List Str) : LogEntry :=
  { state := st.name
    abbreviation := st.abbreviation
    parse_timestamp := d.log_now
    warnings := psWarn r
    errors := psErr r }

/-- The per-state loop of `main`: returns the in-memory log (persisted
whole at the end by `save_log`) together with the processed and skipped
counters. -/
def runBatch : List (StateInfo × DocInput) → List LogEntry → List LogEntry × Nat × Nat
  | [], log => (log, 0, 0)
  | (st, d) :: rest, log =>
    let r := parse_state d.md_exists d.content st.name st.abbreviation d.parse_now
      d.pages_dl d.forms_dl
    match psMeta r with
    | none =>
      let next := runBatch rest log
      (next.1, next.2.1, next.2.2 + 1)
    | some _ =>
      let next := runBatch rest (log ++ [mkEntry st d r])
      (next.1, next.2.1 + 1, next.2.2)

/-- One log entry per document whose parse produced a record, in batch
order (skipped documents contribute nothing). -/
def newEntries (items : List (StateInfo × DocInput)) : List LogEntry :=
  items.filterMap (fun p =>
    let r := parse_state p.2.md_exists p.2.content p.1.name p.1.abbreviation p.2.parse_now
      p.2.pages_dl p.2.forms_dl
    match psMeta r with
    | none => none
    | some _ => some (mkEntry p.1 p.2 r))

/-! ## Serialization of the persisted record (model of `json.dump`) -/

def serStr (v : Str) : Str := '"' :: v ++ ['"']

def serOpt (f : α → Str) : Option α → Str
  | none => str "null"
  | some a => f a

def serBool (b : Bool) : Str := if b then str "true" else str "false"

def serNat (n : Nat) : Str := (toString n).toList

def serList (f : α → Str) (l : List α) : Str :=
  '[' :: joinComma (l.map f) ++ [']']
where
  joinComma : List Str → Str
    | [] => []
    | [x] => x
    | x :: xs => x ++ str ", " ++ joinComma xs

def serForm (f : FormRecord) : Str :=
  str "\x7bname: " ++ serOpt serStr f.name ++ str ", form_number: " ++ serOpt serStr f.form_number ++
  str ", description: " ++ serOpt serStr f.description ++ str ", language: " ++
  serOpt serStr f.language ++ str ", url: " ++ serOpt serStr f.url ++ str ", file_type: " ++
  serOpt serStr f.file_type ++ str "\x7d"

def serMetadata (m : Metadata) : Str :=
  str "\x7bstate: " ++ serStr m.state ++
  str ", abbreviation: " ++ serStr m.abbreviation ++
  str ", collected_date: " ++ serOpt serStr m.collected_date ++
  str ", source_url: " ++ serOpt serStr m.source_url ++
  str ", application: \x7bonline_available: " ++ serOpt serBool m.application.online_available ++
  str ", online_url: " ++ serOpt serStr m.application.online_url ++
  str ", online_doc_submission: " ++ serOpt serBool m.application.online_doc_submission ++
  str ", online_doc_submission_notes: " ++ serOpt serStr m.application.online_doc_submission_notes ++
  str ", steps_count: " ++ serOpt serNat m.application.steps_count ++
  str ", steps: " ++ serList serStr m.application.steps ++
  str "\x7d, documents: \x7bspecified_on_website: " ++ serBool m.documents.specified_on_website ++
  str ", document_list: " ++ serList serStr m.documents.document_list ++
  str "\x7d, interview: \x7brequired: " ++ serOpt serBool m.interview.required ++
  str ", type_options: " ++ serOpt (serList serStr) m.interview.type_options ++
  str ", scheduling_who_initiates: " ++ serOpt serStr m.interview.scheduling_who_initiates ++
  str ", scheduling_url: " ++ serOpt serStr m.interview.scheduling_url ++
  str ", hours_specified: " ++ serBool m.interview.hours_specified ++
  str ", hours_description: " ++ serOpt serStr m.interview.hours_description ++
  str ", evening_weekend_hours: " ++ serOpt serBool m.interview.evening_weekend_hours ++
  str ", hours_notes: " ++ serOpt serStr m.interview.hours_notes ++
  str ", reminders_sent: " ++ serOpt serBool m.interview.reminders_sent ++
  str ", reminder_method: " ++ serOpt serStr m.interview.reminder_method ++
  str ", reschedule_available: " ++ serOpt serBool m.interview.reschedule_available ++
  str ", reschedule_method: " ++ serOpt serStr m.interview.reschedule_method ++
  str ", reschedule_url: " ++ serOpt serStr m.interview.reschedule_url ++
  str ", missed_interview_penalty: " ++ serOpt serStr m.interview.missed_interview_penalty ++
  str ", good_cause_exceptions: " ++ serOpt serBool m.interview.good_cause_exceptions ++
  str ", good_cause_notes: " ++ serOpt serStr m.interview.good_cause_notes ++
  str "\x7d, forms: \x7btotal_count: " ++ serOpt serNat m.forms.total_count ++
  str ", form_list: " ++ serList serForm m.forms.form_list ++
  str "\x7d, language_access: \x7bwebsite_languages: " ++ serOpt (serList serStr) m.language_access.website_languages ++
  str ", form_languages: " ++ serOpt (serList serStr) m.language_access.form_languages ++
  str ", translation_method: " ++ serOpt serStr m.language_access.translation_method ++
  str ", notes: " ++ serOpt serStr m.language_access.notes ++
  str "\x7d, complexity: \x7bsteps_count: " ++ serOpt serNat m.complexity.steps_count ++
  str ", forms_to_complete: " ++ serOpt serNat m.complexity.forms_to_complete ++
  str ", reading_level: " ++ serOpt serStr m.complexity.reading_level ++
  str ", reading_level_notes: " ++ serOpt serStr m.complexity.reading_level_notes ++
  str "\x7d, assets: \x7bpages_referenced: " ++ serNat m.assets.pages_referenced ++
  str ", downloads_referenced: " ++ serNat m.assets.downloads_referenced ++
  str ", pages_downloaded: " ++ serNat m.assets.pages_downloaded ++
  str ", forms_downloaded: " ++ serNat m.assets.forms_downloaded ++
  str "\x7d, parse_status: \x7bparsed: " ++ serBool m.parse_status.parsed ++
  str ", parse_timestamp: " ++ serStr m.parse_status.parse_timestamp ++
  str ", warnings: " ++ serList serStr m.parse_status.warnings ++
  str ", errors: " ++ serList serStr m.parse_status.errors ++
  str "\x7d\x7d"

/-- The bytes written to `metadata.json` by one parse (nothing is written
when no record is produced). -/
def serResult (r : Option Metadata × List Str × List Str) : Str :=
  match psMeta r with
  | none => str "null"
  | some m => serMetadata m

/-- Erase the run timestamp from a record (for comparing two runs). -/
def clearTs (m : Metadata) : Metadata :=
  { m with parse_status := { m.parse_status with parse_timestamp := [] } }

/-! ## Lemmas about stripping -/

lemma dropWhile_idem (p : Char → Bool) (l : Str) :
    (l.dropWhile p).dropWhile p = l.dropWhile p := by
  induction l with
  | nil => rfl
  | cons c cs ih =>
    cases h : p c <;> simp [List.dropWhile_cons, h, ih]

lemma dropWhile_ne_nil_of_mem {p : Char → Bool} {l : Str} {c : Char}
    (hc : c ∈ l) (hpc : p c = false) : l.dropWhile p ≠ [] := by
  intro h
  have := List.dropWhile_eq_nil_iff.mp h c hc
  simp [hpc] at this

lemma getLast?_dropWhile {p : Char → Bool} {l : Str} (h : l.dropWhile p ≠ []) :
    (l.dropWhile p).getLast? = l.getLast? := by
  induction l with
  | nil => simp at h
  | cons c cs ih =>
    cases hc : p c
    · simp [List.dropWhile_cons, hc]
    · simp only [List.dropWhile_cons, hc, if_true] at h ⊢
      have hcs : cs ≠ [] := by
        intro hnil; subst hnil; simp [List.dropWhile] at h
      rw [ih h]
      match cs, hcs with
      | x :: xs, _ => rw [List.getLast?_cons_cons]

lemma head_dropWhile_false {p : Char → Bool} {l m : Str} {c : Char}
    (h : l.dropWhile p = c :: m) : p c = false := by
  induction l with
  | nil => simp [List.dropWhile] at h
  | cons x xs ih =>
    cases hx : p x
    · simp [List.dropWhile_cons, hx] at h
      rw [← h.1]; exact hx
    · simp [List.dropWhile_cons, hx] at h
      exact ih h

/-- Front-stripping and back-stripping commute. -/
lemma dropWhile_trim_comm (l : Str) :
    ((l.reverse.dropWhile pySpace).reverse).dropWhile pySpace
      = ((l.dropWhile pySpace).reverse.dropWhile pySpace).reverse := by
  cases h : l.dropWhile pySpace with
  | nil =>
    have hall : ∀ x ∈ l, pySpace x := List.dropWhile_eq_nil_iff.mp h
    have hrev : l.reverse.dropWhile pySpace = [] :=
      List.dropWhile_eq_nil_iff.mpr (fun x hx => hall x (List.mem_reverse.mp hx))
    simp [hrev]
  | cons c m =>
    have hc : pySpace c = false := head_dropWhile_false h
    have hsplit : l = l.takeWhile pySpace ++ (c :: m) := by
      conv_lhs => rw [← List.takeWhile_append_dropWhile pySpace l]
      rw [h]
    have hallw : ∀ x ∈ l.takeWhile pySpace, pySpace x :=
      fun x hx => List.mem_takeWhile_imp hx
    have hXne : (m.reverse ++ [c]).dropWhile pySpace ≠ [] :=
      dropWhile_ne_nil_of_mem (by simp) hc
    have hrev : l.reverse = (m.reverse ++ [c]) ++ (l.takeWhile pySpace).reverse := by
      conv_lhs => rw [hsplit]
      simp
    have hdropRev : l.reverse.dropWhile pySpace
        = (m.reverse ++ [c]).dropWhile pySpace ++ (l.takeWhile pySpace).reverse := by
      rw [hrev, List.dropWhile_append]
      simp only [List.isEmpty_iff]
      rw [if_neg hXne]
    have hlast : ((m.reverse ++ [c]).dropWhile pySpace).getLast? = some c := by
      rw [getLast?_dropWhile hXne, List.getLast?_concat]
    have hheadrev : (((m.reverse ++ [c]).dropWhile pySpace).reverse).head? = some c := by
      rw [List.head?_reverse]; exact hlast
    obtain ⟨t, ht⟩ := List.head?_eq_some_iff.mp hheadrev
    calc ((l.reverse.dropWhile pySpace).reverse).dropWhile pySpace
        = ((l.takeWhile pySpace) ++ ((m.reverse ++ [c]).dropWhile pySpace).reverse).dropWhile
            pySpace := by rw [hdropRev]; simp
      _ = (((m.reverse ++ [c]).dropWhile pySpace).reverse).dropWhile pySpace := by
          rw [List.dropWhile_append_of_pos hallw]
      _ = ((m.reverse ++ [c]).dropWhile pySpace).reverse := by
          rw [ht, List.dropWhile_cons_of_neg (by simp [hc])]
      _ = ((c :: m).reverse.dropWhile pySpace).reverse := by
          rw [List.reverse_cons]

lemma pyStrip_idem (v : Str) : pyStrip (pyStrip v) = pyStrip v := by
  show ((((((v.dropWhile pySpace).reverse.dropWhile pySpace).reverse).dropWhile
      pySpace).reverse).dropWhile pySpace).reverse = pyStrip v
  rw [dropWhile_trim_comm (v.dropWhile pySpace), dropWhile_idem]
  simp only [List.reverse_reverse, dropWhile_idem]
  rfl

lemma normalize_some_eq {value v : Str} (h : normalize (some value) = some v) :
    v = pyStrip value ∧
      ¬(pyLower v = NOT_SPECIFIED ∨ pyLower v = str "n/a" ∨ pyLower v = str "none" ∨
        pyLower v = str "unclear" ∨ pyLower v = []) := by
  by_cases hc : pyLower (pyStrip value) = NOT_SPECIFIED ∨
      pyLower (pyStrip value) = str "n/a" ∨ pyLower (pyStrip value) = str "none" ∨
      pyLower (pyStrip value) = str "unclear" ∨ pyLower (pyStrip value) = []
  · simp [normalize, hc] at h
  · simp [normalize, hc] at h
    exact ⟨h.symm, h ▸ hc⟩

/-- C10: `normalize` yields absent or a non-empty self-trimmed string, and is
idempotent. -/
theorem normalize_absent_or_trimmed_idempotent :
    ∀ x : Option Str,
      normalize (normalize x) = normalize x ∧
        (normalize x = none ∨
          ∃ v, normalize x = some v ∧ v ≠ [] ∧ pyStrip v = v) := by
  intro x
  match x with
  | none => exact ⟨rfl, Or.inl rfl⟩
  | some value =>
    by_cases hc : pyLower (pyStrip value) = NOT_SPECIFIED ∨
        pyLower (pyStrip value) = str "n/a" ∨ pyLower (pyStrip value) = str "none" ∨
        pyLower (pyStrip value) = str "unclear" ∨ pyLower (pyStrip value) = []
    · constructor
      · simp [normalize, hc]
      · left; simp [normalize, hc]
    · have hval : normalize (some value) = some (pyStrip value) := by
        simp [normalize, hc]
      have hstrip : pyStrip (pyStrip value) = pyStrip value := pyStrip_idem value
      constructor
      · rw [hval]
        simp only [normalize, hstrip]
        rw [if_neg hc]
      · right
        refine ⟨pyStrip value, hval, ?_, hstrip⟩
        intro hnil
        exact hc (Or.inr (Or.inr (Or.inr (Or.inr (by rw [hnil]; rfl)))))

/-! ## Characterization of the list extractors -/

/-- Per-line specification of the bullet extractor. -/
def bulletSpec (line : Str) : Option Str :=
  let l := pyStrip line
  if startsList (str "- ") l || startsList (str "* ") l then
    let item := pyStrip (l.drop 2)
    if item ≠ [] ∧ pyLower item ≠ NOT_SPECIFIED then some item else none
  else none

/-- Per-line specification of the numbered extractor. -/
def numberedSpec (line : Str) : Option Str :=
  match numberedItem line with
  | some st => if pyLower st ≠ NOT_SPECIFIED then some st else none
  | none => none

lemma extract_list_items_foldl (lines : List Str) :
    ∀ init : List Str,
      lines.foldl
        (fun items line =>
          let l := pyStrip line
          if startsList (str "- ") l || startsList (str "* ") l then
            let item := pyStrip (l.drop 2)
            if item ≠ [] ∧ pyLower item ≠ NOT_SPECIFIED then items ++ [item] else items
          else items)
        init
      = init ++ lines.filterMap bulletSpec := by
  induction lines with
  | nil => intro init; simp
  | cons line rest ih =>
    intro init
    simp only [List.foldl_cons, List.filterMap_cons, bulletSpec]
    by_cases h1 : (startsList (str "- ") (pyStrip line) ||
        startsList (str "* ") (pyStrip line)) = true
    · by_cases h2 : pyStrip ((pyStrip line).drop 2) ≠ [] ∧
          pyLower (pyStrip ((pyStrip line).drop 2)) ≠ NOT_SPECIFIED
      · simp only [h1, if_true, if_pos h2, ih]
        simp
      · simp only [h1, if_true, if_neg h2, ih]
    · simp only [if_neg h1, ih]

lemma extract_numbered_steps_foldl (lines : List Str) :
    ∀ init : List Str,
      lines.foldl
        (fun steps line =>
          match numberedItem line with
          | some st => if pyLower st ≠ NOT_SPECIFIED then steps ++ [st] else steps
          | none => steps)
        init
      = init ++ lines.filterMap numberedSpec := by
  induction lines with
  | nil => intro init; simp
  | cons line rest ih =>
    intro init
    simp only [List.foldl_cons, List.filterMap_cons, numberedSpec]
    cases hni : numberedItem line with
    | none => simp only [hni, ih]
    | some st =>
      by_cases h2 : pyLower st ≠ NOT_SPECIFIED
      · simp only [hni, if_pos h2, ih]
        simp
      · simp only [hni, if_neg h2, ih]

/-- C4 (amended): both extractors return the matched items in document
order; the bullet extractor drops exactly the items that are empty or equal
"not specified on website" case-insensitively, and the numbered extractor
drops exactly "not specified on website" (other sentinels such as "n/a",
"none", "unclear" are kept). -/
theorem list_extractors_order_and_sentinel :
    ∀ text : Str,
      extract_list_items text = (pyLines text).filterMap bulletSpec ∧
        extract_numbered_steps text = (pyLines text).filterMap numberedSpec := by
  intro text
  exact ⟨extract_list_items_foldl (pyLines text) [], extract_numbered_steps_foldl (pyLines text) []⟩

/-- C4 counterexample: the claim says every sentinel ("n/a", "none", ...) is
dropped, but the extractors keep them. -/
theorem list_extractors_keep_other_sentinels :
    extract_list_items (str "- n/a") = [str "n/a"] ∧
      extract_numbered_steps (str "1. none") = [str "none"] := by
  constructor <;> rfl

/-! ## Characterization of the form-table extractor -/

/-- First pass of `extract_form_table`: keep a (stripped, pipe-leading) line
as a data row when it is neither a separator row nor a header row and has at
least 6 cells. -/
def rowKeep (line : Str) : Option (List Str) :=
  let cells := cellsOf line
  if isSepRow cells then none
  else if isHeaderRow cells then none
  else if 6 ≤ cells.length then some cells
  else none

/-- Second pass of `extract_form_table`: build the record from the first 6
cells unless the first cell is empty or the "not specified" sentinel. -/
def rowForm (row : List Str) : Option FormRecord :=
  if row.length < 6 then none
  else
    match row with
    | name :: form_num :: desc :: lang :: url :: file_type :: _ =>
      if pyLower name = [] ∨ pyLower name = NOT_SPECIFIED then none
      else some { name := normalize (some name),
                  form_number := normalize (some form_num),
                  description := normalize (some desc),
                  language := normalize (some lang),
                  url := normalize (some url),
                  file_type := normalize (some file_type) }
    | _ => none

/-- Per-line specification of the whole table extractor. -/
def formRowSpec (line : Str) : Option FormRecord := (rowKeep line).bind rowForm

/-- One append-to-accumulator step of a Python-style loop. -/
def stepAppend {α β : Type} (f : α → Option β) (acc : List β) (x : α) : List β :=
  match f x with
  | some r => acc ++ [r]
  | none => acc

lemma foldl_append_filterMap {α β : Type} (f : α → Option β) (l : List α) :
    ∀ init : List β, l.foldl (stepAppend f) init = init ++ l.filterMap f := by
  induction l with
  | nil => intro init; simp
  | cons x xs ih =>
    intro init
    simp only [List.foldl_cons, List.filterMap_cons]
    cases hfx : f x with
    | none => simp only [stepAppend, hfx, ih]
    | some r =>
      simp only [stepAppend, hfx, ih]
      simp

lemma rowsFoldBody_eq (rows : List (List Str)) (line : Str) :
    (let cells := cellsOf line
     if isSepRow cells then rows
     else if isHeaderRow cells then rows
     else if 6 ≤ cells.length then rows ++ [cells]
     else rows)
    = stepAppend rowKeep rows line := by
  simp only [stepAppend, rowKeep]
  by_cases h1 : isSepRow (cellsOf line) = true
  · simp [h1]
  · by_cases h2 : isHeaderRow (cellsOf line) = true
    · simp [h1, h2]
    · by_cases h3 : 6 ≤ (cellsOf line).length
      · simp [h1, h2, h3]
      · simp [h1, h2, h3]

lemma formsFoldBody_eq (forms : List FormRecord) (row : List Str) :
    (if row.length < 6 then forms
     else
       match row with
       | name :: form_num :: desc :: lang :: url :: file_type :: _ =>
         if pyLower name = [] ∨ pyLower name = NOT_SPECIFIED then forms
         else forms ++ [{ name := normalize (some name),
                          form_number := normalize (some form_num),
                          description := normalize (some desc),
                          language := normalize (some lang),
                          url := normalize (some url),
                          file_type := normalize (some file_type) }]
       | _ => forms)
    = stepAppend rowForm forms row := by
  rcases row with _ | ⟨a, _ | ⟨b, _ | ⟨c, _ | ⟨d, _ | ⟨e, _ | ⟨f, rest⟩⟩⟩⟩⟩⟩
  · simp [stepAppend, rowForm]
  · simp [stepAppend, rowForm]
  · simp [stepAppend, rowForm]
  · simp [stepAppend, rowForm]
  · simp [stepAppend, rowForm]
  · simp [stepAppend, rowForm]
  · have hlen : ¬((a :: b :: c :: d :: e :: f :: rest).length < 6) := by
      simp only [List.length_cons]
      omega
    simp only [stepAppend, rowForm, if_neg hlen]
    by_cases hskip : pyLower a = [] ∨ pyLower a = NOT_SPECIFIED
    · simp only [if_pos hskip]
    · simp only [if_neg hskip]

/-- C5 (amended): the table extractor keeps exactly the stripped
pipe-leading lines that are neither separator nor header rows and have at
least 6 cells, takes the first 6 cells as the fixed columns, and discards
exactly the rows whose first cell is empty or equals (case-insensitively)
"not specified on website"; rows whose first cell is another sentinel such
as "n/a" or "none" are kept, with that cell normalized to absent. -/
theorem form_table_characterization :
    ∀ text : Str,
      extract_form_table text
        = (((pyLines text).map pyStrip).filter (fun l => startsList (str "|") l)).filterMap
            formRowSpec := by
  intro text
  have hb1 : (fun (rows : List (List Str)) (line : Str) =>
      let cells := cellsOf line
      if isSepRow cells then rows
      else if isHeaderRow cells then rows
      else if 6 ≤ cells.length then rows ++ [cells]
      else rows)
      = stepAppend rowKeep := by
    funext rows line
    exact rowsFoldBody_eq rows line
  have hb2 : (fun (forms : List FormRecord) (row : List Str) =>
      if row.length < 6 then forms
      else
        match row with
        | name :: form_num :: desc :: lang :: url :: file_type :: _ =>
          if pyLower name = [] ∨ pyLower name = NOT_SPECIFIED then forms
          else forms ++ [{ name := normalize (some name),
                           form_number := normalize (some form_num),
                           description := normalize (some desc),
                           language := normalize (some lang),
                           url := normalize (some url),
                           file_type := normalize (some file_type) }]
        | _ => forms)
      = stepAppend rowForm := by
    funext forms row
    exact formsFoldBody_eq forms row
  have hspec : (fun line => (rowKeep line).bind rowForm) = formRowSpec := by
    funext line
    rfl
  simp only [extract_form_table]
  rw [hb1, foldl_append_filterMap, List.nil_append, hb2, foldl_append_filterMap,
    List.nil_append, List.filterMap_filterMap, hspec]

/-- C5 counterexample: the claim says a 6-cell row whose first cell is any
sentinel (e.g. "n/a") is discarded, but the extractor keeps it (with the
name normalized to absent). -/
theorem form_table_keeps_na_row :
    extract_form_table (str "| n/a | b | c | d | e | f |")
      = [{ name := none, form_number := some (str "b"), description := some (str "c"),
           language := some (str "d"), url := some (str "e"),
           file_type := some (str "f") }] := by
  rfl

/-! ## The placeholder (pending) path -/

/-- C1 (amended): for a document containing the placeholder marker,
`parse_state` produces no record and no warnings, and returns exactly one
informational note — carried in the errors slot of the returned triple (the
batch driver reports it as a skip). -/
theorem placeholder_yields_skip_note :
    ∀ (content state_name state_abbrev now : Str) (pages_dl forms_dl : Nat),
      pyContains PLACEHOLDER_MARKER content = true →
      parse_state true content state_name state_abbrev now pages_dl forms_dl
        = (none, [], [str "agent_output.md is a placeholder — not yet collected"]) := by
  intro content sn sa now pd fd h
  simp [parse_state, h]

theorem placeholder_yields_skip_note_witness :
    parse_state true (str "# Alaska\nNot yet collected.\n") (str "Alaska") (str "AK")
        (str "2025-01-01T00:00:00+00:00") 0 0
      = (none, [], [str "agent_output.md is a placeholder — not yet collected"]) :=
  placeholder_yields_skip_note _ _ _ _ _ _ (by decide)

/-- C1 counterexample: the errors sequence `parse_state` reports for a
placeholder document is not empty — it carries the informational note. -/
theorem placeholder_errors_nonempty :
    psErr (parse_state true (str "Not yet collected.") (str "Alaska") (str "AK")
        (str "2025-01-01T00:00:00+00:00") 0 0) ≠ [] := by
  decide

/-! ## Determinism up to the timestamp -/

/-- C3 (amended): with the document text, file existence and asset counts
fixed, two parses differ at most in `parse_status.parse_timestamp`: erasing
the timestamp makes the records equal, and the warnings and errors agree. -/
theorem parse_deterministic_up_to_timestamp :
    ∀ (md_exists : Bool) (content state_name state_abbrev t1 t2 : Str)
      (pages_dl forms_dl : Nat),
      (psMeta (parse_state md_exists content state_name state_abbrev t1 pages_dl
          forms_dl)).map clearTs
        = (psMeta (parse_state md_exists content state_name state_abbrev t2 pages_dl
          forms_dl)).map clearTs
      ∧ psWarn (parse_state md_exists content state_name state_abbrev t1 pages_dl forms_dl)
        = psWarn (parse_state md_exists content state_name state_abbrev t2 pages_dl forms_dl)
      ∧ psErr (parse_state md_exists content state_name state_abbrev t1 pages_dl forms_dl)
        = psErr (parse_state md_exists content state_name state_abbrev t2 pages_dl forms_dl) := by
  intro ex content sn sa t1 t2 pd fd
  cases ex
  · exact ⟨rfl, rfl, rfl⟩
  · by_cases h : pyContains PLACEHOLDER_MARKER content = true
    · simp [parse_state, h]
    · simp only [parse_state, h]
      exact ⟨rfl, rfl, rfl⟩

/-- C3 counterexample: two runs of the parser on the same unchanged input at
different wall-clock times serialize to different bytes (the embedded
`parse_timestamp` differs), refuting byte-for-byte identity. -/
theorem run_twice_serialization_differs :
    serResult (parse_state true (str "x") (str "Iowa") (str "IA")
        (str "2025-01-01T00:00:00+00:00") 0 0)
      ≠ serResult (parse_state true (str "x") (str "Iowa") (str "IA")
        (str "2025-01-01T00:00:01+00:00") 0 0) := by
  decide

/-! ## The batch log -/

/-- C7 (amended): the log persisted at the end of a batch is the previously
persisted entries followed by exactly one new entry per document whose parse
produced a record, in batch order; skipped documents (missing file or
placeholder) contribute no entry. -/
theorem batch_log_appends_parsed_only :
    ∀ (items : List (StateInfo × DocInput)) (log0 : List LogEntry),
      (runBatch items log0).1 = log0 ++ newEntries items := by
  intro items
  induction items with
  | nil => intro log0; simp [runBatch, newEntries]
  | cons item rest ih =>
    intro log0
    obtain ⟨st, d⟩ := item
    simp only [runBatch, newEntries, List.filterMap_cons]
    cases hm : psMeta (parse_state d.md_exists d.content st.name st.abbreviation
        d.parse_now d.pages_dl d.forms_dl) with
    | none =>
      simp only [hm, ih]
      rfl
    | some m =>
      simp only [hm, ih]
      simp [newEntries]

def skipState : StateInfo := { name := str "Texas", abbreviation := str "TX" }

def skipDoc : DocInput :=
  { md_exists := true, content := str "Not yet collected.", parse_now := str "T1",
    log_now := str "T2", pages_dl := 0, forms_dl := 0 }

/-- C7 counterexample: a batch consisting of one placeholder (skipped)
document appends no log entry at all, refuting "one log entry per
parsed-or-skipped document". -/
theorem skipped_doc_not_logged :
    (runBatch [(skipState, skipDoc)] []).1 = [] ∧
      (runBatch [(skipState, skipDoc)] []).2.2 = 1 := by
  decide

/-! ## Inferred forms count -/

/-- C9: when the FORMS block declares no usable total count but the form
table is non-empty, the record's `forms.total_count` is the table row count
and a warning notes the inference. -/
theorem forms_total_inferred_from_table :
    ∀ (content state_name state_abbrev now : Str) (pages_dl forms_dl : Nat),
      pyContains PLACEHOLDER_MARKER content = false →
      declaredCount (sectGet (split_sections content) FORMS) (str "Total Forms Found") = none →
      extract_form_table (sectGet (split_sections content) FORMS) ≠ [] →
      psMeta (parse_state true content state_name state_abbrev now pages_dl forms_dl)
          = some (parseBody content state_name state_abbrev now pages_dl forms_dl)
        ∧ (parseBody content state_name state_abbrev now pages_dl forms_dl).forms.total_count
          = some (extract_form_table (sectGet (split_sections content) FORMS)).length
        ∧ str "Total Forms Found field missing; inferred from table row count"
            ∈ psWarn (parse_state true content state_name state_abbrev now pages_dl forms_dl) := by
  intro content sn sa now pd fd h0 h1 h2
  refine ⟨?_, ?_, ?_⟩
  · simp [parse_state, h0, psMeta]
  · show (buildForms (sectGet (split_sections content) FORMS)).total_count = _
    simp only [buildForms]
    rw [h1]
    simp [h2]
  · simp only [parse_state, h0]
    show str "Total Forms Found field missing; inferred from table row count"
      ∈ warningsOf (split_sections content)
    simp only [warningsOf]
    rw [if_pos (And.intro h1 h2)]
    simp [List.mem_append]

def doc9 : Str := str "## FORMS\n| Form Name | Number | Desc | Lang | URL | Type |\n|---|---|---|---|---|---|\n| A | 1 | da | en | u1 | pdf |\n| B | 2 | db | en | u2 | pdf |\n| C | 3 | dc | en | u3 | pdf |"

theorem forms_total_inferred_from_table_witness :
    psMeta (parse_state true doc9 (str "Ohio") (str "OH") (str "T0") 0 0)
        = some (parseBody doc9 (str "Ohio") (str "OH") (str "T0") 0 0)
      ∧ (parseBody doc9 (str "Ohio") (str "OH") (str "T0") 0 0).forms.total_count
        = some (extract_form_table (sectGet (split_sections doc9) FORMS)).length
      ∧ str "Total Forms Found field missing; inferred from table row count"
          ∈ psWarn (parse_state true doc9 (str "Ohio") (str "OH") (str "T0") 0 0) :=
  forms_total_inferred_from_table doc9 _ _ _ _ _ (by decide) (by decide) (by decide)

/-! ## Missing required blocks -/

lemma errorsOf_eq_single {d d' B : Str}
    (hB : B ∈ reqNames)
    (hagree : ∀ n ∈ reqNames, n ≠ B →
      sectGet (split_sections d') n = sectGet (split_sections d) n)
    (hzero : sectGet (split_sections d') B = [])
    (hne : ∀ n ∈ reqNames, sectGet (split_sections d) n ≠ []) :
    errorsOf (split_sections d') = [B ++ str " section missing"] := by
  have hother : ∀ n ∈ reqNames, n ≠ B → sectGet (split_sections d') n ≠ [] := by
    intro n hn hnB
    rw [hagree n hn hnB]
    exact hne n hn
  simp only [reqNames, List.mem_cons, List.not_mem_nil, or_false] at hB
  rcases hB with h | h | h | h | h <;> subst h
  · have n2 := hother REQUIRED_DOCUMENTS (by simp [reqNames]) (by decide)
    have n3 := hother INTERVIEW_REQUIREMENTS (by simp [reqNames]) (by decide)
    have n4 := hother FORMS (by simp [reqNames]) (by decide)
    have n5 := hother LANGUAGE_ACCESS (by simp [reqNames]) (by decide)
    simp [errorsOf, hzero, n2, n3, n4, n5]
    decide
  · have n1 := hother APPLICATION_PROCESS (by simp [reqNames]) (by decide)
    have n3 := hother INTERVIEW_REQUIREMENTS (by simp [reqNames]) (by decide)
    have n4 := hother FORMS (by simp [reqNames]) (by decide)
    have n5 := hother LANGUAGE_ACCESS (by simp [reqNames]) (by decide)
    simp [errorsOf, hzero, n1, n3, n4, n5]
    decide
  · have n1 := hother APPLICATION_PROCESS (by simp [reqNames]) (by decide)
    have n2 := hother REQUIRED_DOCUMENTS (by simp [reqNames]) (by decide)
    have n4 := hother FORMS (by simp [reqNames]) (by decide)
    have n5 := hother LANGUAGE_ACCESS (by simp [reqNames]) (by decide)
    simp [errorsOf, hzero, n1, n2, n4, n5]
    decide
  · have n1 := hother APPLICATION_PROCESS (by simp [reqNames]) (by decide)
    have n2 := hother REQUIRED_DOCUMENTS (by simp [reqNames]) (by decide)
    have n3 := hother INTERVIEW_REQUIREMENTS (by simp [reqNames]) (by decide)
    have n5 := hother LANGUAGE_ACCESS (by simp [reqNames]) (by decide)
    simp [errorsOf, hzero, n1, n2, n3, n5]
    decide
  · have n1 := hother APPLICATION_PROCESS (by simp [reqNames]) (by decide)
    have n2 := hother REQUIRED_DOCUMENTS (by simp [reqNames]) (by decide)
    have n3 := hother INTERVIEW_REQUIREMENTS (by simp [reqNames]) (by decide)
    have n4 := hother FORMS (by simp [reqNames]) (by decide)
    simp [errorsOf, hzero, n1, n2, n3, n4]
    decide

/-- C2: removing one required block from an otherwise well-formed document
(leaving every other block's text unchanged) yields exactly the one error
naming that block; a record is still produced with `parsed = false`; every
other required block's sub-record is unchanged; and a missing FORMS block
degrades to `total_count = none` and `form_list = []`. -/
theorem missing_block_isolated_error :
    ∀ (d d' B state_name state_abbrev now : Str) (pages_dl forms_dl : Nat),
      B ∈ reqNames →
      pyContains PLACEHOLDER_MARKER d' = false →
      (∀ n ∈ reqNames, n ≠ B →
        sectGet (split_sections d') n = sectGet (split_sections d) n) →
      sectGet (split_sections d') B = [] →
      (∀ n ∈ reqNames, sectGet (split_sections d) n ≠ []) →
      sectGet (split_sections d') (str "_preamble")
        = sectGet (split_sections d) (str "_preamble") →
      sectGet (split_sections d') (str "COMPLEXITY ASSESSMENT")
        = sectGet (split_sections d) (str "COMPLEXITY ASSESSMENT") →
      sectGet (split_sections d') (str "URLS REFERENCED")
        = sectGet (split_sections d) (str "URLS REFERENCED") →
      psErr (parse_state true d' state_name state_abbrev now pages_dl forms_dl)
          = [B ++ str " section missing"]
        ∧ psMeta (parse_state true d' state_name state_abbrev now pages_dl forms_dl)
          = some (parseBody d' state_name state_abbrev now pages_dl forms_dl)
        ∧ (parseBody d' state_name state_abbrev now pages_dl forms_dl).parse_status.parsed
          = false
        ∧ (B ≠ APPLICATION_PROCESS →
            (parseBody d' state_name state_abbrev now pages_dl forms_dl).application
              = (parseBody d state_name state_abbrev now pages_dl forms_dl).application)
        ∧ (B ≠ REQUIRED_DOCUMENTS →
            (parseBody d' state_name state_abbrev now pages_dl forms_dl).documents
              = (parseBody d state_name state_abbrev now pages_dl forms_dl).documents)
        ∧ (B ≠ INTERVIEW_REQUIREMENTS →
            (parseBody d' state_name state_abbrev now pages_dl forms_dl).interview
              = (parseBody d state_name state_abbrev now pages_dl forms_dl).interview)
        ∧ (B ≠ FORMS →
            (parseBody d' state_name state_abbrev now pages_dl forms_dl).forms
              = (parseBody d state_name state_abbrev now pages_dl forms_dl).forms)
        ∧ (B ≠ LANGUAGE_ACCESS →
            (parseBody d' state_name state_abbrev now pages_dl forms_dl).language_access
              = (parseBody d state_name state_abbrev now pages_dl forms_dl).language_access)
        ∧ (B = FORMS →
            (parseBody d' state_name state_abbrev now pages_dl forms_dl).forms.total_count
                = none
              ∧ (parseBody d' state_name state_abbrev now pages_dl
                  forms_dl).forms.form_list = []) := by
  intro d d' B sn sa now pd fd hB hph hagree hzero hne hpre hcomp hurls
  have herr : errorsOf (split_sections d') = [B ++ str " section missing"] :=
    errorsOf_eq_single hB hagree hzero hne
  refine ⟨?_, ?_, ?_, ?_, ?_, ?_, ?_, ?_, ?_⟩
  · simp only [parse_state, hph]
    simp [psErr, herr]
  · simp [parse_state, hph, psMeta]
  · show (errorsOf (split_sections d')).isEmpty = false
    rw [herr]
    rfl
  · intro hBne
    show buildApplication (sectGet (split_sections d') APPLICATION_PROCESS)
        (sectGet (split_sections d') (str "COMPLEXITY ASSESSMENT"))
      = buildApplication (sectGet (split_sections d) APPLICATION_PROCESS)
        (sectGet (split_sections d) (str "COMPLEXITY ASSESSMENT"))
    rw [hagree APPLICATION_PROCESS (by simp [reqNames]) hBne.symm, hcomp]
  · intro hBne
    show buildDocuments (sectGet (split_sections d') REQUIRED_DOCUMENTS)
      = buildDocuments (sectGet (split_sections d) REQUIRED_DOCUMENTS)
    rw [hagree REQUIRED_DOCUMENTS (by simp [reqNames]) hBne.symm]
  · intro hBne
    show buildInterview (sectGet (split_sections d') INTERVIEW_REQUIREMENTS)
      = buildInterview (sectGet (split_sections d) INTERVIEW_REQUIREMENTS)
    rw [hagree INTERVIEW_REQUIREMENTS (by simp [reqNames]) hBne.symm]
  · intro hBne
    show buildForms (sectGet (split_sections d') FORMS)
      = buildForms (sectGet (split_sections d) FORMS)
    rw [hagree FORMS (by simp [reqNames]) hBne.symm]
  · intro hBne
    show buildLanguage (sectGet (split_sections d') LANGUAGE_ACCESS)
      = buildLanguage (sectGet (split_sections d) LANGUAGE_ACCESS)
    rw [hagree LANGUAGE_ACCESS (by simp [reqNames]) hBne.symm]
  · intro hBF
    subst hBF
    constructor
    · show (buildForms (sectGet (split_sections d') FORMS)).total_count = none
      rw [hzero]
      rfl
    · show (buildForms (sectGet (split_sections d') FORMS)).form_list = []
      rw [hzero]
      rfl

def doc2full : Str := str "## APPLICATION PROCESS\na\n## REQUIRED DOCUMENTS\nb\n## INTERVIEW REQUIREMENTS\nc\n## FORMS\nd\n## LANGUAGE ACCESS\ne"

def doc2noforms : Str := str "## APPLICATION PROCESS\na\n## REQUIRED DOCUMENTS\nb\n## INTERVIEW REQUIREMENTS\nc\n## LANGUAGE ACCESS\ne"

theorem missing_block_isolated_error_witness :
    psErr (parse_state true doc2noforms (str "Utah") (str "UT") (str "T0") 0 0)
        = [FORMS ++ str " section missing"]
      ∧ psMeta (parse_state true doc2noforms (str "Utah") (str "UT") (str "T0") 0 0)
        = some (parseBody doc2noforms (str "Utah") (str "UT") (str "T0") 0 0)
      ∧ (parseBody doc2noforms (str "Utah") (str "UT") (str "T0") 0 0).parse_status.parsed
        = false
      ∧ (FORMS ≠ APPLICATION_PROCESS →
          (parseBody doc2noforms (str "Utah") (str "UT") (str "T0") 0 0).application
            = (parseBody doc2full (str "Utah") (str "UT") (str "T0") 0 0).application)
      ∧ (FORMS ≠ REQUIRED_DOCUMENTS →
          (parseBody doc2noforms (str "Utah") (str "UT") (str "T0") 0 0).documents
            = (parseBody doc2full (str "Utah") (str "UT") (str "T0") 0 0).documents)
      ∧ (FORMS ≠ INTERVIEW_REQUIREMENTS →
          (parseBody doc2noforms (str "Utah") (str "UT") (str "T0") 0 0).interview
            = (parseBody doc2full (str "Utah") (str "UT") (str "T0") 0 0).interview)
      ∧ (FORMS ≠ FORMS →
          (parseBody doc2noforms (str "Utah") (str "UT") (str "T0") 0 0).forms
            = (parseBody doc2full (str "Utah") (str "UT") (str "T0") 0 0).forms)
      ∧ (FORMS ≠ LANGUAGE_ACCESS →
          (parseBody doc2noforms (str "Utah") (str "UT") (str "T0") 0 0).language_access
            = (parseBody doc2full (str "Utah") (str "UT") (str "T0") 0 0).language_access)
      ∧ (FORMS = FORMS →
          (parseBody doc2noforms (str "Utah") (str "UT") (str "T0") 0 0).forms.total_count
              = none
            ∧ (parseBody doc2noforms (str "Utah") (str "UT") (str "T0")
                0 0).forms.form_list = []) :=
  missing_block_isolated_error doc2full doc2noforms FORMS _ _ _ _ _
    (by decide) (by decide) (by decide) (by decide) (by decide) (by decide) (by decide)
    (by decide)

/-! ## The subsection span -/

lemma startsHash3_false {c : Char} {cs : Str} (hc : c ≠ '#') :
    startsList (str "###") (c :: cs) = false := by
  show startsList ('#' :: '#' :: '#' :: []) (c :: cs) = false
  simp only [startsList]
  rw [if_neg (fun h => hc h.symm)]

lemma captureUntilHash3_all {u : Str} (h : ∀ c ∈ u, c ≠ '#') :
    captureUntilHash3 u = u := by
  induction u with
  | nil => rfl
  | cons c cs ih =>
    simp only [captureUntilHash3, startsHash3_false (h c (by simp)), Bool.false_eq_true,
      if_false]
    rw [ih (fun x hx => h x (by simp [hx]))]

lemma captureUntilHash3_stop {u : Str} (v : Str) (h : ∀ c ∈ u, c ≠ '#') :
    captureUntilHash3 (u ++ '#' :: '#' :: '#' :: v) = u := by
  induction u with
  | nil =>
    show captureUntilHash3 ('#' :: '#' :: '#' :: v) = []
    simp [captureUntilHash3, startsList]
  | cons c cs ih =>
    simp only [List.cons_append, captureUntilHash3,
      startsHash3_false (h c (by simp)), Bool.false_eq_true, if_false]
    show c :: captureUntilHash3 (cs ++ '#' :: '#' :: '#' :: v) = c :: cs
    rw [ih (fun x hx => h x (by simp [hx]))]

lemma ciStarts_self_append (n x : Str) : ciStarts n (n ++ x) = true := by
  induction n with
  | nil => rfl
  | cons c cs ih => simp [ciStarts, ih]

lemma lastKeep_lt {p : Char → Bool} {u : Str} {j : Nat} (h : lastKeep p u = some j) :
    j < u.length := by
  induction u generalizing j with
  | nil => simp [lastKeep] at h
  | cons c cs ih =>
    simp only [lastKeep] at h
    cases hrec : lastKeep p cs with
    | some k =>
      rw [hrec] at h
      obtain rfl : k + 1 = j := by simpa using h
      have := ih hrec
      simp only [List.length_cons]
      omega
    | none =>
      rw [hrec] at h
      by_cases hpc : p c = true
      · simp only [hpc, if_true] at h
        obtain rfl : 0 = j := by simpa using h
        simp
      · simp [hpc] at h

lemma lastKeep_cons_pos {p : Char → Bool} {c : Char} (u : Str) (h : p c = true) :
    ∃ j, lastKeep p (c :: u) = some j := by
  simp only [lastKeep]
  cases hrec : lastKeep p u with
  | some k => exact ⟨k + 1, rfl⟩
  | none => exact ⟨0, by simp [h]⟩

lemma dropWhile_drop_of_ws (u : Str) (k : Nat)
    (hk : k ≤ (u.takeWhile pySpace).length) :
    (u.drop k).dropWhile pySpace = u.dropWhile pySpace := by
  have hu : u = u.takeWhile pySpace ++ u.dropWhile pySpace :=
    (List.takeWhile_append_dropWhile pySpace u).symm
  have hdrop : u.drop k = (u.takeWhile pySpace).drop k ++ u.dropWhile pySpace := by
    conv_lhs => rw [hu]
    exact List.drop_append_of_le_length hk
  rw [hdrop, List.dropWhile_append_of_pos
    (fun a ha => List.mem_takeWhile_imp (List.mem_of_mem_drop ha)),
    dropWhile_idem]

lemma pyStrip_drop_ws (u : Str) (k : Nat)
    (hk : k ≤ (u.takeWhile pySpace).length) :
    pyStrip (u.drop k) = pyStrip u := by
  show (((u.drop k).dropWhile pySpace).reverse.dropWhile pySpace).reverse
    = ((u.dropWhile pySpace).reverse.dropWhile pySpace).reverse
  rw [dropWhile_drop_of_ws u k hk]

lemma pyStrip_cons_ws {c : Char} (u : Str) (h : pySpace c = true) :
    pyStrip (c :: u) = pyStrip u := by
  show (((c :: u).dropWhile pySpace).reverse.dropWhile pySpace).reverse
    = ((u.dropWhile pySpace).reverse.dropWhile pySpace).reverse
  rw [List.dropWhile_cons_of_pos h]

lemma pyStrip_concat_ws {c : Char} (u : Str) (h : pySpace c = true) :
    pyStrip (u ++ [c]) = pyStrip u := by
  show (((u ++ [c]).dropWhile pySpace).reverse.dropWhile pySpace).reverse
    = ((u.dropWhile pySpace).reverse.dropWhile pySpace).reverse
  cases hd : u.dropWhile pySpace with
  | nil =>
    have : (u ++ [c]).dropWhile pySpace = [] := by
      rw [List.dropWhile_append]
      simp [hd, List.dropWhile_cons, h]
    simp [this]
  | cons x m =>
    have : (u ++ [c]).dropWhile pySpace = (x :: m) ++ [c] := by
      rw [List.dropWhile_append]
      simp [hd]
    rw [this]
    simp only [List.reverse_append, List.reverse_cons, List.reverse_nil, List.nil_append,
      List.singleton_append]
    rw [List.dropWhile_cons_of_pos h]

lemma takeWhile_append_stop {p : Char → Bool} {x : Char} (a v : Str) (hx : p x = false) :
    (a ++ x :: v).takeWhile p = a.takeWhile p := by
  rw [List.takeWhile_append]
  by_cases hlen : (a.takeWhile p).length = a.length
  · rw [if_pos hlen]
    have hv : (x :: v).takeWhile p = [] := by simp [List.takeWhile_cons, hx]
    rw [hv, List.append_nil]
    exact (List.Sublist.eq_of_length (List.takeWhile_sublist p) hlen).symm
  · rw [if_neg hlen]

lemma subSearch_none {name : Str} :
    ∀ t : Str, pyContains (str "###") t = false → subSearch name t = none := by
  intro t
  induction t with
  | nil => intro _; rfl
  | cons c cs ih =>
    intro h
    simp only [pyContains, Bool.or_eq_false_iff] at h
    simp only [subSearch]
    have : tryMatchSub name (c :: cs) = none := by
      simp only [tryMatchSub, h.1, Bool.false_eq_true, if_false]
    rw [this]
    exact ih h.2

lemma tryMatchSub_head (name rest : Str) (hn : name ≠ [])
    (hnc : ∀ c ∈ name, pySpace c = false) :
    tryMatchSub name ('#' :: '#' :: '#' :: ' ' :: (name ++ '\n' :: rest))
      = match lastKeep (fun c => c == '\n') (('\n' :: rest).takeWhile pySpace) with
        | some j => some (captureUntilHash3 (('\n' :: rest).drop (j + 1)))
        | none => none := by
  have hw : (name ++ '\n' :: rest).takeWhile pySpace = [] := by
    cases name with
    | nil => exact absurd rfl hn
    | cons c cs =>
      rw [List.cons_append]
      exact List.takeWhile_cons_of_neg (by simp [hnc c (by simp)])
  have hs : startsList (str "###") ('#' :: '#' :: '#' :: ' ' :: (name ++ '\n' :: rest))
      = true := rfl
  have e1 : ('#' :: '#' :: '#' :: ' ' :: (name ++ '\n' :: rest)).drop 3
      = ' ' :: (name ++ '\n' :: rest) := rfl
  have e2 : (' ' :: (name ++ '\n' :: rest)).takeWhile pySpace = [' '] := by
    rw [List.takeWhile_cons_of_pos (by rfl), hw]
  have e3 : (' ' :: (name ++ '\n' :: rest)).drop ([' '] : Str).length
      = name ++ '\n' :: rest := rfl
  have e4 : ciStarts name (name ++ '\n' :: rest) = true := ciStarts_self_append name _
  have e5 : (name ++ '\n' :: rest).drop name.length = '\n' :: rest :=
    List.drop_left name _
  simp only [tryMatchSub, hs, if_true, e1, e2, e3, e4, e5]
  simp

/-- The capture produced when the sub-header sits at the head of the text. -/
lemma get_subsection_head (name rest : Str) (hn : name ≠ [])
    (hnc : ∀ c ∈ name, pySpace c = false) :
    ∃ j, lastKeep (fun c => c == '\n') (('\n' :: rest).takeWhile pySpace) = some j
      ∧ j + 1 ≤ (('\n' :: rest).takeWhile pySpace).length
      ∧ get_subsection (str "### " ++ name ++ '\n' :: rest) name
        = pyStrip (captureUntilHash3 (('\n' :: rest).drop (j + 1))) := by
  have hrun : (('\n' :: rest)).takeWhile pySpace = '\n' :: rest.takeWhile pySpace :=
    List.takeWhile_cons_of_pos (by rfl)
  obtain ⟨j, hj⟩ : ∃ j, lastKeep (fun c => c == '\n')
      (('\n' :: rest).takeWhile pySpace) = some j := by
    rw [hrun]
    exact lastKeep_cons_pos _ (by rfl)
  refine ⟨j, hj, Nat.succ_le_of_lt (lastKeep_lt hj), ?_⟩
  have e0 : str "### " ++ name ++ '\n' :: rest
      = '#' :: '#' :: '#' :: ' ' :: (name ++ '\n' :: rest) := rfl
  rw [get_subsection, e0]
  show (match subSearch name ('#' :: '#' :: '#' :: ' ' :: (name ++ '\n' :: rest)) with
    | some cap => pyStrip cap
    | none => []) = _
  simp only [subSearch, tryMatchSub_head name rest hn hnc, hj]

/-- C6 (amended): the subsection span runs from the matching `###`
sub-header to the next occurrence of `###` — which includes deeper-level
headers such as `####` — or to the end of text, trimmed; when the text
contains no `###` at all the result is the empty string, never an error. -/
theorem subsection_span_contract :
    ∀ (name body tail t : Str),
      name ≠ [] →
      (∀ c ∈ name, pySpace c = false ∧ c ≠ '#') →
      (∀ c ∈ body, c ≠ '#') →
      pyContains (str "###") t = false →
      get_subsection (str "### " ++ name ++ '\n' :: body) name = pyStrip body
        ∧ get_subsection
            (str "### " ++ name ++ '\n' :: (body ++ '\n' :: (str "###" ++ tail))) name
          = pyStrip body
        ∧ get_subsection t name = [] := by
  intro name body tail t hn hnc hb ht
  have hnc1 : ∀ c ∈ name, pySpace c = false := fun c hc => (hnc c hc).1
  refine ⟨?_, ?_, ?_⟩
  · obtain ⟨j, hj, hjle, heq⟩ := get_subsection_head name body hn hnc1
    rw [heq]
    have hcap : captureUntilHash3 (('\n' :: body).drop (j + 1))
        = ('\n' :: body).drop (j + 1) := by
      apply captureUntilHash3_all
      intro c hc
      have : c ∈ '\n' :: body := List.mem_of_mem_drop hc
      rcases List.mem_cons.mp this with h | h
      · subst h; decide
      · exact hb c h
    rw [hcap, pyStrip_drop_ws _ _ hjle, pyStrip_cons_ws _ (by rfl)]
  · obtain ⟨j, hj, hjle, heq⟩ :=
      get_subsection_head name (body ++ '\n' :: (str "###" ++ tail)) hn hnc1
    rw [heq]
    have hrearr : ('\n' :: (body ++ '\n' :: (str "###" ++ tail)))
        = ('\n' :: body ++ ['\n']) ++ ('#' :: '#' :: '#' :: tail) := by
      have hhh : str "###" ++ tail = '#' :: '#' :: '#' :: tail := rfl
      rw [hhh]
      simp
    have hsharpfree : ∀ c ∈ ('\n' :: body ++ ['\n']), c ≠ '#' := by
      intro c hc
      rcases List.mem_append.mp hc with h | h
      · rcases List.mem_cons.mp h with h' | h'
        · subst h'; decide
        · exact hb c h'
      · simp only [List.mem_singleton] at h
        subst h; decide
    have hrun : (('\n' :: (body ++ '\n' :: (str "###" ++ tail)))).takeWhile pySpace
        = ('\n' :: body ++ ['\n']).takeWhile pySpace := by
      rw [hrearr]
      exact takeWhile_append_stop _ _ (by rfl)
    have hjle' : j + 1 ≤ (('\n' :: body ++ ['\n']).takeWhile pySpace).length := by
      rw [hrun] at hjle
      exact hjle
    have hjlen : j + 1 ≤ ('\n' :: body ++ ['\n']).length :=
      le_trans hjle' (List.takeWhile_sublist pySpace).length_le
    have hdrop : ('\n' :: (body ++ '\n' :: (str "###" ++ tail))).drop (j + 1)
        = (('\n' :: body ++ ['\n']).drop (j + 1)) ++ ('#' :: '#' :: '#' :: tail) := by
      rw [hrearr]
      exact List.drop_append_of_le_length hjlen
    rw [hdrop, captureUntilHash3_stop _
      (fun c hc => hsharpfree c (List.mem_of_mem_drop hc)),
      pyStrip_drop_ws _ _ hjle']
    show pyStrip ('\n' :: (body ++ ['\n'])) = pyStrip body
    rw [pyStrip_cons_ws _ (by rfl), pyStrip_concat_ws _ (by rfl)]
  · rw [get_subsection, subSearch_none t ht]

/-- C6 counterexample: the claim says a deeper-level `####` header does not
terminate the span, but the extractor stops there: the content below the
`####` line is not part of the returned span. -/
theorem subsection_stops_at_deeper_header :
    get_subsection (str "### Steps\nfoo\n#### Deep\nbar") (str "Steps") = str "foo"
      ∧ str "foo" ≠ str "foo\n#### Deep\nbar" := by
  constructor
  · rfl
  · decide

theorem subsection_span_contract_witness :
    get_subsection (str "### " ++ str "Steps" ++ '\n' :: str "foo bar") (str "Steps")
        = pyStrip (str "foo bar")
      ∧ get_subsection (str "### " ++ str "Steps" ++ '\n' ::
            (str "foo bar" ++ '\n' :: (str "###" ++ str " Tail\nmore"))) (str "Steps")
        = pyStrip (str "foo bar")
      ∧ get_subsection (str "no sub headers at all") (str "Steps") = [] :=
  subsection_span_contract (str "Steps") (str "foo bar") (str " Tail\nmore")
    (str "no sub headers at all") (by decide) (by decide) (by decide) (by decide)

/-! ## The section splitter -/

/-- Total number of content lines stored in a section map. -/
def totalLines (secs : List (Str × Str)) : Nat :=
  (secs.map (fun p => (pyLines p.2).length)).sum

lemma hasKey_dictInsert (m : List (Str × Str)) (k v : Str) :
    hasKey (dictInsert m k v) k = true := by
  induction m with
  | nil => simp [dictInsert, hasKey]
  | cons p rest ih =>
    by_cases h : p.1 = k
    · simp [dictInsert, hasKey, h]
    · simp [dictInsert, hasKey, h, ih]

lemma hasKey_dictInsert_of (m : List (Str × Str)) (k v k' : Str)
    (h : hasKey m k' = true) : hasKey (dictInsert m k v) k' = true := by
  induction m with
  | nil => simp [hasKey] at h
  | cons p rest ih =>
    by_cases hp : p.1 = k
    · simp only [dictInsert, if_pos hp, hasKey]
      by_cases hk' : k = k'
      · rw [if_pos hk']
      · rw [if_neg hk']
        have hp' : ¬p.1 = k' := by rw [hp]; exact hk'
        simp only [hasKey, if_neg hp'] at h
        exact h
    · simp only [dictInsert, if_neg hp, hasKey]
      by_cases hp' : p.1 = k'
      · rw [if_pos hp']
      · rw [if_neg hp']
        simp only [hasKey, if_neg hp'] at h
        exact ih h

lemma sectGet_dictInsert (m : List (Str × Str)) (k v : Str) :
    sectGet (dictInsert m k v) k = v := by
  induction m with
  | nil => simp [dictInsert, sectGet]
  | cons p rest ih =>
    by_cases h : p.1 = k
    · simp [dictInsert, sectGet, h]
    · simp [dictInsert, sectGet, h, ih]

lemma totalLines_dictInsert (m : List (Str × Str)) (k v : Str) :
    totalLines (dictInsert m k v) ≤ totalLines m + (pyLines v).length := by
  induction m with
  | nil => simp [dictInsert, totalLines]
  | cons p rest ih =>
    by_cases h : p.1 = k
    · simp only [dictInsert, if_pos h, totalLines, List.map_cons, List.sum_cons]
      omega
    · simp only [dictInsert, if_neg h, totalLines, List.map_cons, List.sum_cons]
      have := ih
      simp only [totalLines] at this
      omega

lemma pyLines_no_nl : ∀ (t : Str), ∀ l ∈ pyLines t, '\n' ∉ l := by
  intro t
  induction t with
  | nil => intro l hl; simp [pyLines] at hl
  | cons c cs ih =>
    intro l hl
    by_cases hc : c = '\n'
    · subst hc
      have hexp : pyLines ('\n' :: cs) = [] :: pyLines cs := by simp [pyLines]
      rw [hexp] at hl
      rcases List.mem_cons.mp hl with h | h
      · subst h; simp
      · exact ih l h
    · cases hrec : pyLines cs with
      | nil =>
        have hexp : pyLines (c :: cs) = [[c]] := by simp [pyLines, hc, hrec]
        rw [hexp] at hl
        simp only [List.mem_singleton] at hl
        subst hl
        intro hmem
        simp only [List.mem_singleton] at hmem
        exact hc hmem.symm
      | cons hd tl =>
        have hexp : pyLines (c :: cs) = (c :: hd) :: tl := by simp [pyLines, hc, hrec]
        rw [hexp] at hl
        simp only [List.mem_cons] at hl
        rcases hl with rfl | hl
        · intro hmem
          rcases List.mem_cons.mp hmem with h | h
          · exact hc h.symm
          · exact ih hd (by simp [hrec]) h
        · exact ih l (by simp [hrec, hl])

lemma pyLines_single {l : Str} (h : '\n' ∉ l) :
    pyLines l = if l = [] then [] else [l] := by
  induction l with
  | nil => rfl
  | cons c cs ih =>
    have hc : ¬(c = '\n') := fun hcc => h (by simp [hcc])
    have hcs : '\n' ∉ cs := fun hmem => h (by simp [hmem])
    simp only [pyLines, if_neg hc, ih hcs]
    by_cases hnil : cs = []
    · subst hnil; simp
    · simp [hnil]

lemma pyLines_concat_nl {l : Str} (h : '\n' ∉ l) :
    pyLines (l ++ ['\n']) = [l] := by
  induction l with
  | nil => rfl
  | cons c cs ih =>
    have hc : ¬(c = '\n') := fun hcc => h (by simp [hcc])
    have hcs : '\n' ∉ cs := fun hmem => h (by simp [hmem])
    have e : (c :: cs) ++ ['\n'] = c :: (cs ++ ['\n']) := rfl
    rw [e]
    simp [pyLines, hc, ih hcs]

lemma pyLines_append_ne_nil (xs : Str) : pyLines (xs ++ ['\n']) ≠ [] := by
  induction xs with
  | nil => simp [pyLines]
  | cons c cs ih =>
    have e : (c :: cs) ++ ['\n'] = c :: (cs ++ ['\n']) := rfl
    rw [e]
    by_cases hc : c = '\n'
    · subst hc; simp [pyLines]
    · cases hrec : pyLines (cs ++ ['\n']) with
      | nil => exact absurd hrec ih
      | cons hd tl => simp [pyLines, hc, hrec]

lemma pyLines_append (xs ys : Str) :
    pyLines (xs ++ '\n' :: ys) = pyLines (xs ++ ['\n']) ++ pyLines ys := by
  induction xs with
  | nil => simp [pyLines]
  | cons c cs ih =>
    have e1 : (c :: cs) ++ '\n' :: ys = c :: (cs ++ '\n' :: ys) := rfl
    have e2 : (c :: cs) ++ ['\n'] = c :: (cs ++ ['\n']) := rfl
    rw [e1, e2]
    by_cases hc : c = '\n'
    · subst hc
      have f1 : pyLines ('\n' :: (cs ++ '\n' :: ys)) = [] :: pyLines (cs ++ '\n' :: ys) := by
        simp [pyLines]
      have f2 : pyLines ('\n' :: (cs ++ ['\n'])) = [] :: pyLines (cs ++ ['\n']) := by
        simp [pyLines]
      rw [f1, f2, ih]
      rfl
    · cases hrec : pyLines (cs ++ ['\n']) with
      | nil => exact absurd hrec (pyLines_append_ne_nil cs)
      | cons hd tl =>
        have hrec2 : pyLines (cs ++ '\n' :: ys) = (hd :: tl) ++ pyLines ys := by
          rw [ih, hrec]
        have f1 : pyLines (c :: (cs ++ '\n' :: ys))
            = (c :: hd) :: (tl ++ pyLines ys) := by
          simp [pyLines, hc, hrec2]
        have f2 : pyLines (c :: (cs ++ ['\n'])) = (c :: hd) :: tl := by
          simp [pyLines, hc, hrec]
        rw [f1, f2]
        rfl

lemma pyLines_join_le : ∀ (ls : List Str), (∀ l ∈ ls, '\n' ∉ l) →
    (pyLines (joinLines ls)).length ≤ ls.length := by
  intro ls
  induction ls with
  | nil => intro _; simp [joinLines, pyLines]
  | cons l rest ih =>
    intro h
    cases rest with
    | nil =>
      rw [show joinLines [l] = l from rfl, pyLines_single (h l (by simp))]
      by_cases hnil : l = [] <;> simp [hnil]
    | cons r rs =>
      rw [show joinLines (l :: r :: rs) = l ++ '\n' :: joinLines (r :: rs) from rfl,
        pyLines_append, pyLines_concat_nl (h l (by simp))]
      have := ih (fun x hx => h x (by simp [hx]))
      simp only [List.length_append, List.length_cons, List.length_nil] at this ⊢
      omega

lemma splitAux_hasKey_of (ls : List Str) :
    ∀ (key : Str) (acc : List Str) (secs : List (Str × Str)) (k : Str),
      hasKey secs k = true → hasKey (splitAux ls key acc secs) k = true := by
  induction ls with
  | nil =>
    intro key acc secs k h
    exact hasKey_dictInsert_of secs key _ k h
  | cons line rest ih =>
    intro key acc secs k h
    simp only [splitAux]
    cases hm : headerMatch line with
    | some g => exact ih _ [] _ k (hasKey_dictInsert_of secs key _ k h)
    | none => exact ih key (line :: acc) secs k h

lemma splitAux_hasKey_current (ls : List Str) :
    ∀ (key : Str) (acc : List Str) (secs : List (Str × Str)),
      hasKey (splitAux ls key acc secs) key = true := by
  induction ls with
  | nil =>
    intro key acc secs
    exact hasKey_dictInsert secs key _
  | cons line rest ih =>
    intro key acc secs
    simp only [splitAux]
    cases hm : headerMatch line with
    | some g =>
      exact splitAux_hasKey_of rest _ [] _ key
        (hasKey_dictInsert secs key _)
    | none => exact ih key (line :: acc) secs

lemma splitAux_hasKey_header (ls : List Str) :
    ∀ (key : Str) (acc : List Str) (secs : List (Str × Str)) (l : Str),
      l ∈ ls → isHeaderLine l = true →
      hasKey (splitAux ls key acc secs) (headerKey l) = true := by
  induction ls with
  | nil => intro _ _ _ l hl; simp at hl
  | cons line rest ih =>
    intro key acc secs l hl hhd
    rcases List.mem_cons.mp hl with rfl | hl
    · simp only [splitAux]
      cases hm : headerMatch l with
      | some g =>
        have hkey : headerKey l = pyUpper (pyStrip g) := by
          simp [headerKey, hm]
        rw [hkey]
        exact splitAux_hasKey_current rest _ [] _
      | none => simp [isHeaderLine, hm] at hhd
    · simp only [splitAux]
      cases hm : headerMatch line with
      | some g => exact ih _ [] _ l hl hhd
      | none => exact ih key (line :: acc) secs l hl hhd

lemma splitAux_totalLines (ls : List Str) :
    ∀ (key : Str) (acc : List Str) (secs : List (Str × Str)),
      (∀ l ∈ ls, '\n' ∉ l) → (∀ l ∈ acc, '\n' ∉ l) →
      totalLines (splitAux ls key acc secs)
        ≤ totalLines secs + acc.length + (ls.filter (fun x => !isHeaderLine x)).length := by
  induction ls with
  | nil =>
    intro key acc secs _ hacc
    simp only [splitAux, List.filter_nil, List.length_nil, Nat.add_zero]
    calc totalLines (dictInsert secs key (joinLines acc.reverse))
        ≤ totalLines secs + (pyLines (joinLines acc.reverse)).length :=
          totalLines_dictInsert secs key _
      _ ≤ totalLines secs + acc.length := by
          have := pyLines_join_le acc.reverse (fun l hl => hacc l (List.mem_reverse.mp hl))
          have hlen : acc.reverse.length = acc.length := List.length_reverse acc
          omega
  | cons line rest ih =>
    intro key acc secs hls hacc
    have hrest : ∀ l ∈ rest, '\n' ∉ l := fun l hl => hls l (by simp [hl])
    cases hm : headerMatch line with
    | some g =>
      have hsplit : splitAux (line :: rest) key acc secs
          = splitAux rest (pyUpper (pyStrip g)) []
              (dictInsert secs key (joinLines acc.reverse)) := by
        simp [splitAux, hm]
      rw [hsplit]
      have hhd : isHeaderLine line = true := by simp [isHeaderLine, hm]
      have step := ih (pyUpper (pyStrip g)) []
        (dictInsert secs key (joinLines acc.reverse)) hrest (by simp)
      have hins : totalLines (dictInsert secs key (joinLines acc.reverse))
          ≤ totalLines secs + acc.length := by
        calc totalLines (dictInsert secs key (joinLines acc.reverse))
            ≤ totalLines secs + (pyLines (joinLines acc.reverse)).length :=
              totalLines_dictInsert secs key _
          _ ≤ totalLines secs + acc.length := by
              have := pyLines_join_le acc.reverse
                (fun l hl => hacc l (List.mem_reverse.mp hl))
              have hlen : acc.reverse.length = acc.length := List.length_reverse acc
              omega
      have hfilter : (List.filter (fun x => !isHeaderLine x) (line :: rest))
          = List.filter (fun x => !isHeaderLine x) rest := by
        simp [List.filter_cons, hhd]
      rw [hfilter]
      simp only [List.length_nil, Nat.add_zero] at step
      omega
    | none =>
      have hsplit : splitAux (line :: rest) key acc secs
          = splitAux rest key (line :: acc) secs := by
        simp [splitAux, hm]
      rw [hsplit]
      have hhd : isHeaderLine line = false := by simp [isHeaderLine, hm]
      have step := ih key (line :: acc) secs hrest
        (by
          intro l hl
          rcases List.mem_cons.mp hl with rfl | hl
          · exact hls l (by simp)
          · exact hacc l hl)
      have hfilter : (List.filter (fun x => !isHeaderLine x) (line :: rest)).length
          = (List.filter (fun x => !isHeaderLine x) rest).length + 1 := by
        simp [List.filter_cons, hhd]
      rw [hfilter]
      simp only [List.length_cons] at step
      omega

lemma splitAux_no_header (bodyLines : List Str) :
    ∀ (key : Str) (acc : List Str) (secs : List (Str × Str)),
      (∀ l ∈ bodyLines, isHeaderLine l = false) →
      splitAux bodyLines key acc secs
        = dictInsert secs key (joinLines (acc.reverse ++ bodyLines)) := by
  induction bodyLines with
  | nil => intro key acc secs _; simp [splitAux]
  | cons b rest ih =>
    intro key acc secs hall
    have hm : headerMatch b = none := by
      have hb := hall b (by simp)
      cases hmb : headerMatch b with
      | none => rfl
      | some g => rw [isHeaderLine, hmb] at hb; simp at hb
    have hsplit : splitAux (b :: rest) key acc secs = splitAux rest key (b :: acc) secs := by
      simp [splitAux, hm]
    rw [hsplit, ih key (b :: acc) secs (fun l hl => hall l (by simp [hl]))]
    congr 1
    simp

lemma splitAux_last_header (ls1 : List Str) :
    ∀ (key : Str) (acc : List Str) (secs : List (Str × Str)) (hl g : Str)
      (bodyLines : List Str),
      headerMatch hl = some g →
      (∀ l ∈ bodyLines, isHeaderLine l = false) →
      sectGet (splitAux (ls1 ++ hl :: bodyLines) key acc secs) (pyUpper (pyStrip g))
        = joinLines bodyLines := by
  induction ls1 with
  | nil =>
    intro key acc secs hl g bodyLines hm hbody
    rw [List.nil_append]
    have h1 : splitAux (hl :: bodyLines) key acc secs
        = splitAux bodyLines (pyUpper (pyStrip g)) []
            (dictInsert secs key (joinLines acc.reverse)) := by
      simp [splitAux, hm]
    rw [h1, splitAux_no_header bodyLines _ [] _ hbody, sectGet_dictInsert]
    rfl
  | cons l rest ih =>
    intro key acc secs hl g bodyLines hm hbody
    have e : (l :: rest) ++ hl :: bodyLines = l :: (rest ++ hl :: bodyLines) := rfl
    rw [e]
    cases hml : headerMatch l with
    | some g' =>
      have h1 : splitAux (l :: (rest ++ hl :: bodyLines)) key acc secs
          = splitAux (rest ++ hl :: bodyLines) (pyUpper (pyStrip g')) []
              (dictInsert secs key (joinLines acc.reverse)) := by
        simp [splitAux, hml]
      rw [h1]
      exact ih _ [] _ hl g bodyLines hm hbody
    | none =>
      have h1 : splitAux (l :: (rest ++ hl :: bodyLines)) key acc secs
          = splitAux (rest ++ hl :: bodyLines) key (l :: acc) secs := by
        simp [splitAux, hml]
      rw [h1]
      exact ih key (l :: acc) secs hl g bodyLines hm hbody

lemma drop_takeWhile_len (p : Char → Bool) (l : Str) :
    l.drop (l.takeWhile p).length = l.dropWhile p := by
  induction l with
  | nil => rfl
  | cons c cs ih =>
    cases hp : p c
    · simp [List.takeWhile_cons, List.dropWhile_cons, hp]
    · simp [List.takeWhile_cons, List.dropWhile_cons, hp, ih]

lemma pyStrip_dropWhile (h : Str) : pyStrip (h.dropWhile pySpace) = pyStrip h := by
  show (((h.dropWhile pySpace).dropWhile pySpace).reverse.dropWhile pySpace).reverse
    = ((h.dropWhile pySpace).reverse.dropWhile pySpace).reverse
  rw [dropWhile_idem]

lemma headerMatch_line (h : Str) (hnl : '\n' ∉ h) (hnw : ∃ c ∈ h, pySpace c = false) :
    headerMatch (str "## " ++ h) = some (h.dropWhile pySpace) := by
  have e : str "## " ++ h = '#' :: '#' :: ' ' :: h := rfl
  rw [e]
  have hs : startsList (str "##") ('#' :: '#' :: ' ' :: h) = true := rfl
  have e1 : ('#' :: '#' :: ' ' :: h).drop 2 = ' ' :: h := rfl
  have e2 : (' ' :: h).takeWhile pySpace = ' ' :: h.takeWhile pySpace :=
    List.takeWhile_cons_of_pos (by rfl)
  have hwne : (' ' :: h.takeWhile pySpace) ≠ [] := by simp
  have e3 : (' ' :: h).drop (' ' :: h.takeWhile pySpace).length = h.dropWhile pySpace := by
    simp only [List.length_cons, List.drop_succ_cons]
    exact drop_takeWhile_len pySpace h
  obtain ⟨c0, hc0mem, hc0⟩ := hnw
  have hbodyne : h.dropWhile pySpace ≠ [] := dropWhile_ne_nil_of_mem hc0mem hc0
  have e4 : (h.dropWhile pySpace).takeWhile (fun c => !(c == '\n')) = h.dropWhile pySpace := by
    apply List.takeWhile_eq_self_iff.mpr
    intro x hx
    have hxh : x ∈ h := (List.dropWhile_sublist pySpace).mem hx
    have : ¬(x = '\n') := fun hxe => hnl (hxe ▸ hxh)
    simp [this]
  simp only [headerMatch, hs, if_true, e1, e2, e3]
  rw [if_neg hwne, if_neg hbodyne, e4]

/-- C8: the section splitter's map contains the preamble and an entry for
every `##` header seen; lines are attributed to at most one block (the
stored line count never exceeds the number of non-header lines); deeper
headers (`###`, `####`) do not close a block (a `###` line stays inside
the final block's content below); and when a header name repeats, the later
occurrence's content replaces the earlier one's (the conclusion holds for an
arbitrary prefix `u`, which may itself contain a `## h` block). -/
theorem split_sections_contract :
    ∀ (t u h body l : Str),
      l ∈ pyLines t → isHeaderLine l = true →
      '\n' ∉ h → (∃ c ∈ h, pySpace c = false) →
      '\n' ∉ body → isHeaderLine body = false →
      hasKey (split_sections t) (str "_preamble") = true
        ∧ hasKey (split_sections t) (headerKey l) = true
        ∧ totalLines (split_sections t)
            ≤ ((pyLines t).filter (fun x => !isHeaderLine x)).length
        ∧ sectGet (split_sections (u ++ '\n' :: (str "## " ++ h ++ '\n' :: body)))
            (pyUpper (pyStrip h)) = body := by
  intro t u h body l hmem hhead hnl hex hbnl hbhd
  refine ⟨?_, ?_, ?_, ?_⟩
  · exact splitAux_hasKey_current _ _ _ _
  · exact splitAux_hasKey_header _ _ _ _ l hmem hhead
  · have hb := splitAux_totalLines (pyLines t) (str "_preamble") [] []
      (pyLines_no_nl t) (by simp)
    simp only [totalLines, List.map_nil, List.sum_nil, List.length_nil, Nat.zero_add,
      Nat.add_zero] at hb
    exact hb
  · have hnlfull : '\n' ∉ str "## " ++ h := by
      intro hmem'
      rcases List.mem_append.mp hmem' with hin | hin
      · simp [str] at hin
      · exact hnl hin
    have hsplit_text : pyLines (u ++ '\n' :: (str "## " ++ h ++ '\n' :: body))
        = pyLines (u ++ ['\n']) ++ ((str "## " ++ h) :: pyLines body) := by
      rw [pyLines_append]
      congr 1
      have e : str "## " ++ h ++ '\n' :: body = (str "## " ++ h) ++ '\n' :: body := by
        rw [List.append_assoc]
      rw [e, pyLines_append, pyLines_concat_nl hnlfull]
      rfl
    have hm := headerMatch_line h hnl hex
    have hbodylines : ∀ l' ∈ pyLines body, isHeaderLine l' = false := by
      intro l' hl'
      rw [pyLines_single hbnl] at hl'
      by_cases hb0 : body = []
      · rw [if_pos hb0] at hl'; simp at hl'
      · rw [if_neg hb0] at hl'
        simp only [List.mem_singleton] at hl'
        subst hl'
        exact hbhd
    have hjoin : joinLines (pyLines body) = body := by
      rw [pyLines_single hbnl]
      by_cases hb0 : body = []
      · rw [if_pos hb0, hb0]; rfl
      · rw [if_neg hb0]; rfl
    have hkey : pyUpper (pyStrip h) = pyUpper (pyStrip (h.dropWhile pySpace)) := by
      rw [pyStrip_dropWhile]
    rw [split_sections, hsplit_text, hkey]
    exact (splitAux_last_header (pyLines (u ++ ['\n'])) (str "_preamble") [] []
      (str "## " ++ h) (h.dropWhile pySpace) (pyLines body) hm hbodylines).trans hjoin

theorem split_sections_contract_witness :
    hasKey (split_sections (str "## A\nx")) (str "_preamble") = true
      ∧ hasKey (split_sections (str "## A\nx")) (headerKey (str "## A")) = true
      ∧ totalLines (split_sections (str "## A\nx"))
          ≤ ((pyLines (str "## A\nx")).filter (fun x => !isHeaderLine x)).length
      ∧ sectGet (split_sections (str "intro\n## FORMS\nold" ++ '\n' ::
            (str "## " ++ str "FORMS" ++ '\n' :: str "### deep stuff")))
          (pyUpper (pyStrip (str "FORMS"))) = str "### deep stuff" :=
  split_sections_contract (str "## A\nx") (str "intro\n## FORMS\nold") (str "FORMS")
    (str "### deep stuff") (str "## A") (by decide) (by decide) (by decide) (by decide)
    (by decide) (by decide)

end ParseOutputs
